import Mathlib

/-!
Verification of the report-generator render-and-validate pipeline
(`src/main.py`): CSV ingestion (`parse_csv_text`, `parse_csv_text_strict`,
`normalize_csv_headers`, `sanitize_csv_cell`), the table-spec validator
(`validate_against_csv`), the hoftalon output validation hooks
(`find_forbidden_terms`, `validate_hoftalon_output`), HTML table building
(`build_html_table`), the safe template render wrapper (`render_html_safe`),
and template resolution (`resolve_template_for_payload`, the template
resolution stage of `render_with_tables`).

Python strings are modelled as Lean `String` (both are sequences of Unicode
code points; Python `len` and slicing agree with `String.length` / char
lists).  Python `dict[str, str]` values are modelled as association lists
with Python's insertion-order and overwrite-in-place semantics (`PyDict`).
Whitespace predicates model the ASCII whitespace characters, which are the
only whitespace characters exercised by the properties below.
-/

/-- Model of Python `str.isspace` membership for the ASCII whitespace
characters used by `str.strip()`. -/
def isPySpace (c : Char) : Bool :=
  c = ' ' || c = '\t' || c = '\n' || c = '\r' || c = '\x0b' || c = '\x0c'

/-- `str.strip()` on a list of characters: drop leading and trailing
whitespace. -/
def pyStripList (l : List Char) : List Char :=
  ((l.dropWhile isPySpace).reverse.dropWhile isPySpace).reverse

/-- Model of Python `str.strip()` (no arguments). -/
def pyStrip (s : String) : String :=
  String.mk (pyStripList s.toList)

/-- A Python `dict[str, str]`: association list in insertion order.  All
dicts built by the modelled code have pairwise distinct keys. -/
abbrev PyDict := List (String × String)

/-- The keys of a dict, in order (`dict.keys()`). -/
def dictKeys (d : PyDict) : List String := d.map Prod.fst

/-- Key membership test (`k in d`). -/
def dictContains (d : PyDict) (k : String) : Bool :=
  (dictKeys d).contains k

/-- `d.get(k, dflt)`. -/
def dictGetD (d : PyDict) (k : String) (dflt : String) : String :=
  match d.find? (fun p => p.1 == k) with
  | some p => p.2
  | none => dflt

/-- `d[k] = v` when `k` may already be present: overwrite in place at the
first occurrence, else append. -/
def dictSet (d : PyDict) (k v : String) : PyDict :=
  match d with
  | [] => [(k, v)]
  | (k', v') :: rest => if k' == k then (k, v) :: rest else (k', v') :: dictSet rest k v

/-- One step of `dict(...)` construction: insert respecting Python's
overwrite-in-place semantics. -/
def pyDictInsert (d : PyDict) (k v : String) : PyDict :=
  if dictContains d k then dictSet d k v else d ++ [(k, v)]

/-- Model of `dict(pairs)`: left fold of insertions. -/
def pyDictOfPairs (l : List (String × String)) : PyDict :=
  l.foldl (fun d p => pyDictInsert d p.1 p.2) []

/-- First index at which `needle` occurs as a contiguous sublist of `hay`. -/
def subIndex (needle hay : List Char) : Option Nat :=
  if needle.isPrefixOf hay then some 0
  else
    match hay with
    | [] => none
    | _ :: t => (subIndex needle t).map (· + 1)

/-- First character offset of substring `needle` in `hay` (`str.find`,
`none` for absent). -/
def strFind (needle hay : String) : Option Nat :=
  subIndex needle.toList hay.toList

/-- Number of occurrences of character `c` in `s`. -/
def countChar (c : Char) (s : String) : Nat := s.toList.count c

/- Size limits from `src/main.py` (lines 386-396). -/

def MAX_TEMPLATE_CHARS : Nat := 1000000
def MAX_TEMPLATE_KEY_CHARS : Nat := 80
def MAX_DATA_CHARS : Nat := 200000
def MAX_OUTPUT_CHARS : Nat := 1000000
def MAX_CSV_ROWS : Nat := 1000
def MAX_CSV_COLUMNS : Nat := 50
def MAX_CELL_CHARS : Nat := 500

/-- CPython `csv` module field size limit (`csv.field_size_limit()`
default). -/
def CSV_FIELD_LIMIT : Nat := 131072

/-!
## The CSV reader

`parse_csv_text` and `parse_csv_text_strict` read rows with
`csv.reader(io.StringIO(text), dialect)` where the dialect is `csv.excel`
with a caller-chosen single-character delimiter (quote character `"`,
`doublequote=True`, no escape character, `strict=False`,
`skipinitialspace=False`).  The state machine below models the CPython
reader on the character stream:

* records end at `\n`, or at `\r` (after which only `\r` then an optional
  `\n` may follow before the next record starts; any other character makes
  CPython raise `csv.Error("new-line character seen in unquoted field")` --
  modelled by the `Except` error, which in `src/main.py` would propagate
  as an unhandled exception);
* an empty line yields an empty record `[]`;
* a field beginning with `"` is quoted; inside it, delimiter and newline
  characters are literal and `""` denotes one `"`;
* after a closing quote, a stray character is appended to the field and the
  field continues unquoted (`strict=False` behaviour);
* a quote not at field start is a literal character;
* an unterminated quoted field at end of input yields its content;
* appending a character to a field whose content already has
  `CSV_FIELD_LIMIT` characters is an error (`field larger than field
  limit`).

Delimiter sniffing (`csv.Sniffer`) only chooses the delimiter character
when none is supplied; the model takes the resolved delimiter as input and
the theorems quantify over it, covering every sniffer outcome.
-/

/-- Reader states: start of record, start of field, in unquoted field,
in quoted field, just after a quote inside a quoted field, eating the
tail of a `\r` record terminator. -/
inductive CsvSt
  | sr
  | sf
  | inf
  | inq
  | qiq
  | ec
deriving Repr, DecidableEq

/-- The CPython `csv.reader` state machine.  `fld` is the current field
content in reverse, `rec` the completed fields of the current record in
reverse. -/
def csvReadGo (d : Char) : CsvSt → List Char → List String → List Char →
    Except Unit (List (List String))
  | .sr, _, _, [] => .ok []
  | .sr, _, _, c :: rest =>
    if c = '\n' then (csvReadGo d .sr [] [] rest).map (fun rs => [] :: rs)
    else if c = '\r' then (csvReadGo d .ec [] [] rest).map (fun rs => [] :: rs)
    else if c = '"' then csvReadGo d .inq [] [] rest
    else if c = d then csvReadGo d .sf [] [""] rest
    else csvReadGo d .inf [c] [] rest
  | .sf, _, rec, [] => .ok [(("" :: rec).reverse)]
  | .sf, _, rec, c :: rest =>
    if c = '\n' then
      (csvReadGo d .sr [] [] rest).map (fun rs => ("" :: rec).reverse :: rs)
    else if c = '\r' then
      (csvReadGo d .ec [] [] rest).map (fun rs => ("" :: rec).reverse :: rs)
    else if c = '"' then csvReadGo d .inq [] rec rest
    else if c = d then csvReadGo d .sf [] ("" :: rec) rest
    else csvReadGo d .inf [c] rec rest
  | .inf, fld, rec, [] => .ok [((String.mk fld.reverse :: rec).reverse)]
  | .inf, fld, rec, c :: rest =>
    if c = '\n' then
      (csvReadGo d .sr [] [] rest).map
        (fun rs => (String.mk fld.reverse :: rec).reverse :: rs)
    else if c = '\r' then
      (csvReadGo d .ec [] [] rest).map
        (fun rs => (String.mk fld.reverse :: rec).reverse :: rs)
    else if c = d then csvReadGo d .sf [] (String.mk fld.reverse :: rec) rest
    else if fld.length = CSV_FIELD_LIMIT then .error ()
    else csvReadGo d .inf (c :: fld) rec rest
  | .inq, fld, rec, [] => .ok [((String.mk fld.reverse :: rec).reverse)]
  | .inq, fld, rec, c :: rest =>
    if c = '"' then csvReadGo d .qiq fld rec rest
    else if fld.length = CSV_FIELD_LIMIT then .error ()
    else csvReadGo d .inq (c :: fld) rec rest
  | .qiq, fld, rec, [] => .ok [((String.mk fld.reverse :: rec).reverse)]
  | .qiq, fld, rec, c :: rest =>
    if c = '"' then
      if fld.length = CSV_FIELD_LIMIT then .error ()
      else csvReadGo d .inq ('"' :: fld) rec rest
    else if c = d then csvReadGo d .sf [] (String.mk fld.reverse :: rec) rest
    else if c = '\n' then
      (csvReadGo d .sr [] [] rest).map
        (fun rs => (String.mk fld.reverse :: rec).reverse :: rs)
    else if c = '\r' then
      (csvReadGo d .ec [] [] rest).map
        (fun rs => (String.mk fld.reverse :: rec).reverse :: rs)
    else if fld.length = CSV_FIELD_LIMIT then .error ()
    else csvReadGo d .inf (c :: fld) rec rest
  | .ec, _, _, [] => .ok []
  | .ec, _, _, c :: rest =>
    if c = '\r' then csvReadGo d .ec [] [] rest
    else if c = '\n' then csvReadGo d .sr [] [] rest
    else .error ()

/-- All records produced by `csv.reader(io.StringIO(text), dialect)` with
delimiter `d`. -/
def csvReadRows (d : Char) (text : String) : Except Unit (List (List String)) :=
  csvReadGo d .sr [] [] text.toList

/-- `src/main.py:1989` `sanitize_csv_cell`: strip, then truncate overlong
cells appending an ellipsis. -/
def sanitize_csv_cell (value : String) : String :=
  let cleaned := pyStrip value
  if MAX_CELL_CHARS < cleaned.length then
    String.mk (cleaned.toList.take MAX_CELL_CHARS) ++ "..."
  else cleaned

/-- The synthesized name for a blank header cell at 0-based index `idx`
(`col_N`, 1-based). -/
def colName (idx : Nat) : String := "col_" ++ toString (idx + 1)

/-- First phase of `normalize_csv_headers`: strip each raw header cell and
synthesize `col_N` for blank or absent cells, producing `total` names. -/
def headerBase (raw : List String) (total : Nat) : List String :=
  (List.range total).map (fun idx =>
    let v := pyStrip (raw.getD idx "")
    if v = "" then colName idx else v)

/-- Second phase of `normalize_csv_headers`: the Python loop counts each
ORIGINAL name's occurrences in a `seen` dict and rewrites repeated names in
place as `name_count` (count starting at 2).  `seenPre` holds the original
names already processed. -/
def dedupGo (seenPre : List String) : List String → List String
  | [] => []
  | n :: rest =>
    let count := seenPre.count n + 1
    (if 1 < count then n ++ "_" ++ toString count else n) :: dedupGo (seenPre ++ [n]) rest

/-- `src/main.py:1973` `normalize_csv_headers`. -/
def normalize_csv_headers (raw : List String) (total : Nat) : List String :=
  dedupGo [] (headerBase raw total)

/-- Python `any(cell.strip() for cell in row)`: the row has a cell with
non-blank content (preview-mode skip test). -/
def rowNonBlank (row : List String) : Bool :=
  row.any (fun c => pyStrip c ≠ "")

/-- Python `any(cell for cell in row)`: the row has a non-empty cell
(strict-mode skip test). -/
def rowNonEmpty (row : List String) : Bool :=
  row.any (fun c => c ≠ "")

/-- Typed CSV parse failures; each constructor corresponds to one raise
site in `parse_csv_text` / `parse_csv_text_strict`:
`tooManyColumns` = "CSV com muitas colunas (max 50).",
`noValidRows` = "CSV sem linhas validas.",
`noValidColumns` = "CSV sem colunas validas.",
`tooManyRows` = "CSV com muitas linhas (max 1000)." (strict only),
`cellTooLong` = "Celula muito longa (max 500 chars)." (strict only),
`readerError` = an exception propagating from the stdlib `csv` reader. -/
inductive CsvFail
  | tooManyColumns
  | noValidRows
  | noValidColumns
  | tooManyRows
  | cellTooLong
  | readerError
deriving Repr, DecidableEq

/-- The preview-mode row collection loop of `parse_csv_text`
(src/main.py:2016-2031): skip blank rows, reject wide rows, stop after
`MAX_CSV_ROWS` kept rows marking the result truncated.  `total` is the
number of rows kept so far. -/
def collectPreviewRows (total : Nat) :
    List (List String) → Except CsvFail (List (List String) × Bool)
  | [] => .ok ([], false)
  | r :: rest =>
    if ¬ rowNonBlank r then collectPreviewRows total rest
    else if MAX_CSV_COLUMNS < r.length then .error .tooManyColumns
    else if MAX_CSV_ROWS < total + 1 then .ok ([], true)
    else (collectPreviewRows (total + 1) rest).map (fun p => (r :: p.1, p.2))

/-- The strict-mode row collection loop of `parse_csv_text_strict`
(src/main.py:2092-2106): skip empty rows, reject wide rows, reject more
than `MAX_CSV_ROWS` kept rows.  `count` is the number of rows kept so
far. -/
def collectStrictRows (count : Nat) :
    List (List String) → Except CsvFail (List (List String))
  | [] => .ok []
  | r :: rest =>
    if ¬ rowNonEmpty r then collectStrictRows count rest
    else if MAX_CSV_COLUMNS < r.length then .error .tooManyColumns
    else if MAX_CSV_ROWS < count + 1 then .error .tooManyRows
    else (collectStrictRows (count + 1) rest).map (fun l => r :: l)

/-- Maximum row width (`max((len(r) for r in rows), default=0)`). -/
def maxRowLen (rows : List (List String)) : Nat :=
  rows.foldr (fun r m => max r.length m) 0

/-- Right-pad `cells` with empty strings, or right-truncate, to exactly
`n` entries. -/
def padTruncate (cells : List String) (n : Nat) : List String :=
  (cells ++ List.replicate (n - cells.length) "").take n

/-- Result of `parse_csv_text`: headers, rows (as dicts), truncation flag,
the delimiter used, and the number of data rows read. -/
structure CsvParsed where
  headers : List String
  rows : List PyDict
  truncated : Bool
  delimiter : Char
  rowCount : Nat
deriving Repr, DecidableEq

/-- The normalization tail of `parse_csv_text` (src/main.py:2033-2069),
applied to the collected non-blank rows. -/
def previewAssemble (d : Char) (hasHeader : Bool)
    (rows : List (List String)) (truncated : Bool) :
    Except CsvFail CsvParsed :=
  if rows = [] then throw .noValidRows
  else
    let rawHeaders := if hasHeader then rows.headD [] else []
    let dataRows := if hasHeader then rows.tail else rows
    let maxColumns :=
      if hasHeader then max rawHeaders.length (maxRowLen dataRows)
      else maxRowLen dataRows
    if maxColumns = 0 then throw .noValidColumns
    else if MAX_CSV_COLUMNS < maxColumns then throw .tooManyColumns
    else
      let headers :=
        if hasHeader then normalize_csv_headers rawHeaders maxColumns
        else (List.range maxColumns).map colName
      let parsedRows := dataRows.map (fun r =>
        let cleaned := r.map sanitize_csv_cell
        pyDictOfPairs (headers.zip (padTruncate cleaned headers.length)))
      pure ⟨headers, parsedRows, truncated, d, dataRows.length⟩

/-- `parse_csv_text` after the reader: collect rows, then normalize. -/
def parse_csv_rows (d : Char) (hasHeader : Bool) (raw : List (List String)) :
    Except CsvFail CsvParsed := do
  let (rows, truncated) ← collectPreviewRows 0 raw
  previewAssemble d hasHeader rows truncated

/-- `src/main.py:1996` `parse_csv_text` (preview mode), modelled after
delimiter resolution (the resolved single-character delimiter `d` is an
argument; when no delimiter is supplied the source sniffs one with
`csv.Sniffer`, which only selects `d`). -/
def parse_csv_text (text : String) (d : Char) (hasHeader : Bool) :
    Except CsvFail CsvParsed := do
  let raw ← (csvReadRows d text).mapError (fun _ => CsvFail.readerError)
  parse_csv_rows d hasHeader raw

/-- Result of `parse_csv_text_strict`: headers, rows (as dicts), and the
delimiter used. -/
structure CsvStrictParsed where
  headers : List String
  rows : List PyDict
  delimiter : Char
deriving Repr, DecidableEq

/-- The normalization tail of `parse_csv_text_strict`
(src/main.py:2108-2149), applied to the collected non-empty rows. -/
def strictAssemble (d : Char) (hasHeader : Bool) (rows : List (List String)) :
    Except CsvFail CsvStrictParsed :=
  if rows = [] then throw .noValidRows
  else
    let rawHeaders := if hasHeader then rows.headD [] else []
    let dataRows := if hasHeader then rows.tail else rows
    let maxColumns :=
      if hasHeader then max rawHeaders.length (maxRowLen dataRows)
      else maxRowLen dataRows
    if maxColumns = 0 then throw .noValidColumns
    else if MAX_CSV_COLUMNS < maxColumns then throw .tooManyColumns
    else
      let headers :=
        if hasHeader then normalize_csv_headers rawHeaders maxColumns
        else (List.range maxColumns).map colName
      let adjusted := dataRows.map (fun r => padTruncate r headers.length)
      if adjusted.any (fun r => r.any (fun cell => MAX_CELL_CHARS < cell.length)) then
        throw .cellTooLong
      else
        pure ⟨headers, adjusted.map (fun r => pyDictOfPairs (headers.zip r)), d⟩

/-- `parse_csv_text_strict` after the reader. -/
def parse_csv_rows_strict (d : Char) (hasHeader : Bool)
    (raw : List (List String)) : Except CsvFail CsvStrictParsed := do
  let rows ← collectStrictRows 0 raw
  strictAssemble d hasHeader rows

/-- `src/main.py:2072` `parse_csv_text_strict` (strict mode), modelled
after delimiter resolution like `parse_csv_text`.  Cells are NOT stripped
or truncated; a cell longer than `MAX_CELL_CHARS` is rejected. -/
def parse_csv_text_strict (text : String) (d : Char) (hasHeader : Bool) :
    Except CsvFail CsvStrictParsed := do
  let raw ← (csvReadRows d text).mapError (fun _ => CsvFail.readerError)
  parse_csv_rows_strict d hasHeader raw

example : csvReadRows ',' "a,b\n1,2\n3,4" = .ok [["a","b"],["1","2"],["3","4"]] := rfl

example : csvReadRows ',' "a,\"b,c\"\n" = .ok [["a","b,c"]] := rfl

example : csvReadRows ',' "\"x\"\"y\"" = .ok [["x\"y"]] := rfl

example : csvReadRows ',' "   " = .ok [["   "]] := rfl

example : csvReadRows ',' "a\n\nb" = .ok [["a"],[],["b"]] := rfl

example :
    (parse_csv_text "a,b\n1,2\n3,4" ',' true).map CsvParsed.headers
      = .ok ["a", "b"] := rfl

example :
    parse_csv_text "a,a,a_2\n1,2,3" ',' true
      = .ok ⟨["a", "a_2", "a_2"], [[("a", "1"), ("a_2", "3")]], false, ',', 1⟩ := rfl

/-!
## The table-spec validator (`validate_against_csv`, src/main.py:2450)
-/

/-- `src/main.py:1712` (pydantic model) `TableSpec`: an externally produced
candidate table. -/
structure TableSpec where
  title : Option String := none
  description : Option String := none
  columns : List String
  rows : List PyDict
deriving Repr, DecidableEq

/-- Typed counterpart of the `ValueError`s raised by `validate_against_csv`;
each constructor carries exactly the data interpolated into the
corresponding message. -/
inductive CsvSpecError
  | columnMismatch (csv llm : List String)
  | rowCountMismatch (csv llm : Nat)
  | missingColumns (idx : Nat) (missing : List String)
  | extraColumns (idx : Nat) (extra : List String)
  | contentMismatch (idx : Nat) (col expected actual : String)
deriving Repr, DecidableEq

/-- The inner column loop of `validate_against_csv`: first header whose
value differs raises `ContentMismatch`. -/
def checkRowContent (idx : Nat) (csvRow llmRow : PyDict) :
    List String → Except CsvSpecError Unit
  | [] => .ok ()
  | col :: rest =>
    let csvValue := dictGetD csvRow col ""
    let llmValue := dictGetD llmRow col ""
    if llmValue ≠ csvValue then
      .error (.contentMismatch idx col csvValue llmValue)
    else checkRowContent idx csvRow llmRow rest

/-- The per-row checks of `validate_against_csv` for row `idx`. -/
def checkRow (headers : List String) (idx : Nat) (csvRow llmRow : PyDict) :
    Except CsvSpecError Unit :=
  let missing := headers.filter (fun col => !dictContains llmRow col)
  if missing ≠ [] then .error (.missingColumns idx missing)
  else
    let extra := (dictKeys llmRow).filter (fun col => !headers.contains col)
    if extra ≠ [] then .error (.extraColumns idx extra)
    else checkRowContent idx csvRow llmRow headers

/-- The row loop of `validate_against_csv` (rows already known to have equal
length; Python indexes `spec.rows[idx]` for each enumerated CSV row). -/
def checkRows (headers : List String) (idx : Nat) :
    List PyDict → List PyDict → Except CsvSpecError Unit
  | [], _ => .ok ()
  | csvRow :: csvRest, llmRow :: llmRest => do
    checkRow headers idx csvRow llmRow
    checkRows headers (idx + 1) csvRest llmRest
  | _ :: _, [] => .ok ()

/-- `src/main.py:2450` `validate_against_csv`. -/
def validate_against_csv (spec : TableSpec) (headers : List String)
    (rows : List PyDict) : Except CsvSpecError Unit :=
  if spec.columns ≠ headers then
    .error (.columnMismatch headers spec.columns)
  else if spec.rows.length ≠ rows.length then
    .error (.rowCountMismatch rows.length spec.rows.length)
  else checkRows headers 0 rows spec.rows

/-!
## Hoftalon output validation (src/main.py:2331-2343, 5260-5263)
-/

/-- `src/main.py:244` `HOFTALON_FORBIDDEN_TERMS`. -/
def HOFTALON_FORBIDDEN_TERMS : List String :=
  ["json", "sql", "id", "template_id", "endpoint", "api", "fastapi",
   "jinja", "tables_md", "tables_html", "tables_meta", "database", "commit"]

/-- `src/main.py:219` `HOFTALON_SECTION_HEADERS`. -/
def HOFTALON_SECTION_HEADERS : List String :=
  ["1. OBJETIVO", "2. ESCOPO", "3. METODOLOGIA", "4. RESULTADOS",
   "5. PLANO DE AÇÃO", "6. ACHADOS / OBSERVAÇÕES"]

/-- Python regex word character (`\w` / `\b` boundaries) for the ASCII
range; the forbidden vocabulary and the documents scanned in the theorems
below are ASCII. -/
def isWordChar (c : Char) : Bool :=
  c.isAlpha || c.isDigit || c = '_'

/-- Case-insensitive character match (`re.IGNORECASE`, ASCII). -/
def charMatchCI (a b : Char) : Bool := a.toLower == b.toLower

/-- Case-insensitive list prefix match. -/
def listMatchCI : List Char → List Char → Bool
  | [], _ => true
  | _ :: _, [] => false
  | a :: as_, b :: bs => charMatchCI a b && listMatchCI as_ bs

/-- There is a whole-word, case-insensitive occurrence of `term` starting
exactly at `hay` (the previous character, if any, is `prev`). -/
def wholeWordAt (term hay : List Char) (prevIsWord : Bool) : Bool :=
  ¬ prevIsWord && listMatchCI term hay &&
    (match hay.drop term.length with
     | [] => true
     | c :: _ => ¬ isWordChar c)

/-- Scan of `re.search(rf"\b{re.escape(term)}\b", text, re.IGNORECASE)`:
some position of `text` carries a whole-word case-insensitive occurrence
of `term`. -/
def wholeWordSearchGo (term : List Char) (prevIsWord : Bool) :
    List Char → Bool
  | [] => wholeWordAt term [] prevIsWord
  | c :: rest =>
    wholeWordAt term (c :: rest) prevIsWord ||
      wholeWordSearchGo term (isWordChar c) rest

/-- Whole-word case-insensitive occurrence of `term` in `text`. -/
def wholeWordSearch (term text : String) : Bool :=
  wholeWordSearchGo term.toList false text.toList

/-- `src/main.py:2331` `find_forbidden_terms`: every configured forbidden
term with a whole-word, case-insensitive occurrence, in configuration
order. -/
def find_forbidden_terms (text : String) : List String :=
  HOFTALON_FORBIDDEN_TERMS.filter (fun term => wholeWordSearch term text)

/-- Per-table provenance metadata (the `tables_meta` dict entries built in
`render_with_tables`); only the fields read by the validation layer are
modelled. -/
structure TableMeta where
  key : String
  sampled : Bool := false
  truncated : Bool := false
deriving Repr, DecidableEq

/-- `src/main.py:2340` `validate_hoftalon_output`: the function body is
`return None` — it accepts every rendered output unconditionally. -/
def validate_hoftalon_output (_outputHtml : String)
    (_tablesMeta : List TableMeta) : Option String :=
  none

/-- The structural-validation gate of `render_with_tables`
(src/main.py:5260-5263): in hoftalon style, a `some` error from
`validate_hoftalon_output` raises HTTP 400, otherwise the output is
accepted. -/
def hoftalon_output_gate (outputHtml : String) (tablesMeta : List TableMeta) :
    Except String String :=
  match validate_hoftalon_output outputHtml tablesMeta with
  | some err => .error err
  | none => .ok outputHtml

/-!
## HTML table building (`build_html_table`, src/main.py:2152)
-/

/-- `"".join(parts)`: concatenation of a list of strings. -/
def concatStrings : List String → String
  | [] => ""
  | s :: rest => s ++ concatStrings rest

/-- Model of Python `html.escape(s)` (with the default `quote=True`):
`&`, `<`, `>`, `"`, `'` are replaced by entities.  The sequential
`str.replace` calls of the stdlib implementation (ampersand first) act
pointwise on the original characters. -/
def escapeChar (c : Char) : String :=
  if c = '&' then "&amp;"
  else if c = '<' then "&lt;"
  else if c = '>' then "&gt;"
  else if c = '"' then "&quot;"
  else if c = '\'' then "&#x27;"
  else String.mk [c]

/-- Model of Python `html.escape`. -/
def html_escape (s : String) : String :=
  concatStrings (s.toList.map escapeChar)

/-- One body cell of `build_html_table`: `<td>` around the escaped value of
`row.get(col, "")`. -/
def tableCell (row : PyDict) (col : String) : String :=
  "<td>" ++ html_escape (dictGetD row col "") ++ "</td>"

/-- One body row of `build_html_table`. -/
def tableRow (columns : List String) (row : PyDict) : String :=
  "<tr>" ++ concatStrings (columns.map (tableCell row)) ++ "</tr>"

/-- The caption fragment of `build_html_table`: escaped and emitted only
when the caption is truthy (present and non-empty, Python `if caption`). -/
def captionHtmlOf : Option String → String
  | some c => if c ≠ "" then "<caption>" ++ html_escape c ++ "</caption>" else ""
  | none => ""

/-- `src/main.py:2152` `build_html_table`. -/
def build_html_table (columns : List String) (rows : List PyDict)
    (caption : Option String := none) : String :=
  let headCells := concatStrings (columns.map (fun col =>
    "<th>" ++ html_escape col ++ "</th>"))
  "<div class=\"table-wrap\">" ++ "<table>" ++ captionHtmlOf caption ++
    "<thead><tr>" ++ headCells ++ "</tr></thead>" ++ "<tbody>" ++
    concatStrings (rows.map (tableRow columns)) ++ "</tbody>" ++ "</table>" ++
    "</div>"

/-!
## The safe render wrapper (`render_html_safe`, src/main.py:1882)

`render_html_safe` submits the Jinja evaluation to a worker pool and awaits
it with a wall-clock timeout.  The evaluation outcome (a rendered string, a
raised exception message, or a timeout) is not a pure function of the
inputs alone (it involves the sandboxed interpreter and real time), so it
is modelled as an explicit `EvalOutcome` argument; the error wrapping and
the output size check that follow are translated faithfully.
-/

/-- Outcome of awaiting the submitted Jinja evaluation: a result, a raised
exception (message), or a `FutureTimeoutError`. -/
inductive EvalOutcome
  | ok (output : String)
  | exc (message : String)
  | timeout
deriving Repr, DecidableEq

/-- `src/main.py:1882` `render_html_safe`: returns `(output, error)` with
exactly one side populated. -/
def render_html_safe (r : EvalOutcome) : Option String × Option String :=
  match r with
  | .timeout => (none, some "Tempo limite de render (max 2.0s).")
  | .exc message => (none, some ("Erro no template: " ++ message))
  | .ok output =>
    if MAX_OUTPUT_CHARS < output.length then
      (none, some "Saida muito longa (max 1000000 caracteres).")
    else (some output, none)

/-!
## Template resolution (src/main.py:1750-1854, 5136-5166)
-/

/-- `src/main.py:273` `HOFTALON_BASE_TEMPLATE` (the built-in hoftalon report
template; brace characters written with character escapes). -/
def HOFTALON_BASE_TEMPLATE : String :=
  "\x7b% if logo_url %\x7d\n<div class=\"pdf-header\">\n  <img src=\"\x7b\x7b logo_url \x7d\x7d\" alt=\"Logo\">\n</div>\n\x7b% endif %\x7d\n\n\x7b% if show_base_cover %\x7d\n<section class=\"print-cover\">\n  <h1>RELATÓRIO TÉCNICO DE INVENTÁRIO</h1>\n</section>\n<div class=\"page-break\"></div>\n\x7b% endif %\x7d\n\n\x7b% if custom_pages_html %\x7d\n\x7b\x7b custom_pages_html \x7d\x7d\n<div class=\"page-break\"></div>\n\x7b% endif %\x7d\n\n\x7b% if show_base_toc %\x7d\n<section class=\"print-toc\">\n  <h2>SUMÁRIO</h2>\n  <ul>\n  \x7b% for item in sumario %\x7d\n    <li><span>\x7b\x7b item \x7d\x7d</span></li>\n  \x7b% endfor %\x7d\n  </ul>\n</section>\n<div class=\"page-break\"></div>\n\x7b% endif %\x7d\n\n<section class=\"report-meta\">\n  <p><strong>Cidade:</strong> \x7b\x7b cidade \x7d\x7d</p>\n  <p><strong>Unidade:</strong> \x7b\x7b unidade \x7d\x7d</p>\n  <p><strong>Período:</strong> \x7b\x7b periodo \x7d\x7d</p>\n  <p><strong>Data-base:</strong> \x7b\x7b data_base \x7d\x7d</p>\n  <p><strong>Responsável técnico:</strong> \x7b\x7b responsavel_tecnico \x7d\x7d</p>\n</section>\n\n<h2>1. OBJETIVO</h2>\n<p>\x7b\x7b objetivo \x7d\x7d</p>\n\n<h2>2. ESCOPO</h2>\n<p>\x7b\x7b escopo \x7d\x7d</p>\n\n<h2>3. METODOLOGIA</h2>\n<p>\x7b\x7b metodologia \x7d\x7d</p>\n\n<h2>4. RESULTADOS</h2>\n\n<h3>4.1 \x7b\x7b resultados_4_1_titulo \x7d\x7d\x7b\x7b resultados_4_1_sufixo \x7d\x7d</h3>\n\x7b% if resultados_4_1_nota %\x7d\n<p class=\"note\">\x7b\x7b resultados_4_1_nota \x7d\x7d</p>\n\x7b% endif %\x7d\n\x7b\x7b tables_html[\"resultados_1\"] \x7d\x7d\n\n<h3>4.2 \x7b\x7b resultados_4_2_titulo \x7d\x7d\x7b\x7b resultados_4_2_sufixo \x7d\x7d</h3>\n\x7b% if resultados_4_2_nota %\x7d\n<p class=\"note\">\x7b\x7b resultados_4_2_nota \x7d\x7d</p>\n\x7b% endif %\x7d\n\x7b\x7b tables_html[\"resultados_2\"] \x7d\x7d\n\n<h2>5. PLANO DE AÇÃO</h2>\n\x7b% if plano_intro %\x7d\n<p>\x7b\x7b plano_intro \x7d\x7d</p>\n\x7b% endif %\x7d\n\x7b\x7b tables_html[\"atividades\"] \x7d\x7d\n\n<h2>6. ACHADOS / OBSERVAÇÕES</h2>\n<ul>\n\x7b% for item in achados %\x7d\n  <li>\x7b\x7b item \x7d\x7d</li>\n\x7b% endfor %\x7d\n</ul>\n"

/-- `src/main.py:347` `FLOW_TEMPLATE_EXAMPLE`. -/
def FLOW_TEMPLATE_EXAMPLE : String := HOFTALON_BASE_TEMPLATE

/-- `src/main.py:1750` `validate_template_text`. -/
def validate_template_text (templateText : String) : Option String :=
  if pyStrip templateText = "" then some "Template nao pode ser vazio."
  else if MAX_TEMPLATE_CHARS < templateText.length then
    some "Template muito longo (max 1000000 caracteres)."
  else none

/-- A stored template row (`models.Template`); only the fields read by
resolution are modelled. -/
structure TemplateRec where
  body : String
  isActive : Bool := true
deriving Repr, DecidableEq

/-- The external template store consulted through the ORM session:
lookup by primary key (`session.get(Template, id)`) and lookup by
`(key, version)` (`select(Template).where(...)`). -/
structure TemplateStore where
  byId : Nat → Option TemplateRec
  byKeyVer : String → Nat → Option TemplateRec

/-- `src/main.py:1727` (pydantic model) `RenderRequest`; only the
template-selection fields are modelled. -/
structure RenderRequest where
  template : Option String := none
  template_id : Option Nat := none
  template_key : Option String := none
  template_version : Option Nat := none
deriving Repr, DecidableEq

/-- Python truthiness of `payload.template_key` (`None` and `""` are
falsy). -/
def keyTruthy (p : RenderRequest) : Bool :=
  match p.template_key with
  | some k => k ≠ ""
  | none => false

/-- The record checks shared by the two store-lookup branches of
`resolve_template_for_payload`: missing record, deactivated record,
invalid body. -/
def resolveRecord (rec? : Option TemplateRec) :
    Except String (String × Option TemplateRec) :=
  match rec? with
  | none => .error "Template nao encontrado."
  | some r =>
    if ¬ r.isActive then .error "Template desativado."
    else
      match validate_template_text r.body with
      | some e => .error e
      | none => .ok (r.body, some r)

/-- `src/main.py:1818` `resolve_template_for_payload`: resolve by
`template_id` first, else by truthy `template_key` plus present
`template_version`, else by the inline `template`; all three absent is a
validation error. -/
def resolve_template_for_payload (store : TemplateStore) (p : RenderRequest) :
    Except String (String × Option TemplateRec) :=
  match p.template_id with
  | some tid => resolveRecord (store.byId tid)
  | none =>
    if keyTruthy p ∧ p.template_version.isSome then
      resolveRecord (store.byKeyVer (p.template_key.getD "") (p.template_version.getD 0))
    else
      match p.template with
      | none => .error "Template ou template_id e obrigatorio."
      | some t =>
        match validate_template_text t with
        | some e => .error e
        | none => .ok (t, none)

/-- The template-selection fields of `RenderWithTablesRequest`
(`src/main.py:1727-1738`). -/
structure RenderWithTablesRequest where
  template : Option String := none
  template_id : Option Nat := none
  template_key : Option String := none
  template_version : Option Nat := none
  report_style : Option String := none
deriving Repr, DecidableEq

/-- The template-resolution stage of `render_with_tables`
(src/main.py:5136-5166): in hoftalon style with no template input at all,
the built-in `HOFTALON_BASE_TEMPLATE` is used instead of erroring; in
default style, `resolve_template_for_payload` decides. -/
def render_with_tables_template (store : TemplateStore)
    (p : RenderWithTablesRequest) : Except String String :=
  let reportStyle := (p.report_style.getD "default")
  let reportStyle := if reportStyle = "" then "default" else reportStyle
  let templateInput := pyStrip (p.template.getD "")
  let templateInput :=
    if reportStyle = "hoftalon" ∧ templateInput = pyStrip FLOW_TEMPLATE_EXAMPLE
    then "" else templateInput
  let templateRequest : RenderRequest :=
    { template := if templateInput = "" then none else some templateInput,
      template_id := p.template_id,
      template_key := p.template_key,
      template_version := p.template_version }
  let keyTruthyW :=
    match p.template_key with
    | some k => k ≠ ""
    | none => false
  if reportStyle = "hoftalon" then
    if templateInput != "" || p.template_id.isSome || keyTruthyW then
      match resolve_template_for_payload store templateRequest with
      | .error e => .error e
      | .ok (text, _) =>
        match validate_template_text text with
        | some e => .error e
        | none => .ok text
    else
      match validate_template_text HOFTALON_BASE_TEMPLATE with
      | some e => .error e
      | none => .ok HOFTALON_BASE_TEMPLATE
  else
    match resolve_template_for_payload store templateRequest with
    | .error e => .error e
    | .ok (text, _) => .ok text

/-!
## The template evaluator (`jinja_env` / `render_html`, src/main.py:1741,
1877)

`jinja_env` is a `SandboxedEnvironment` configured with
`undefined=StrictUndefined`: referencing a variable absent from the render
context raises `UndefinedError` instead of substituting an empty string.
The model below covers the variable-substitution fragment of the template
language (literal text and expressions of the form `\x7b\x7b name \x7d\x7d`),
which is the fragment the specified scenario exercises; `render_html`
parses the template and evaluates it against the context under the
StrictUndefined rule. -/
inductive TmplNode
  | lit (s : List Char)
  | var (name : String)
deriving Repr, DecidableEq

/-- The literal nodes contributed by a (reversed) pending literal
accumulator. -/
def litOf (acc : List Char) : List TmplNode :=
  if acc = [] then [] else [.lit acc.reverse]

/-- Template parser: `inVar` says whether we are inside a
`\x7b\x7b ... \x7d\x7d` expression; `acc` is the pending text in reverse.
An unterminated expression is a `TemplateSyntaxError`. -/
def parseTmplGo : Bool → List Char → List Char → Except String (List TmplNode)
  | false, acc, [] => .ok (litOf acc)
  | false, acc, '{' :: '{' :: rest =>
    (parseTmplGo true [] rest).map (fun ns => litOf acc ++ ns)
  | false, acc, c :: rest => parseTmplGo false (c :: acc) rest
  | true, _, [] => .error "unexpected end of template"
  | true, acc, '}' :: '}' :: rest =>
    (parseTmplGo false [] rest).map
      (fun ns => TmplNode.var (pyStrip (String.mk acc.reverse)) :: ns)
  | true, acc, c :: rest => parseTmplGo true (c :: acc) rest

/-- Parse a template string into nodes. -/
def parseTmpl (t : String) : Except String (List TmplNode) :=
  parseTmplGo false [] t.toList

/-- Context lookup (`data[name]`): `none` models an undefined reference. -/
def ctxLookup (ctx : PyDict) (n : String) : Option String :=
  (ctx.find? (fun p => p.1 == n)).map Prod.snd

/-- Evaluate parsed nodes under StrictUndefined: an undefined variable
reference raises `UndefinedError` (wrapped in the error message). -/
def renderNodes (ctx : PyDict) : List TmplNode → Except String String
  | [] => .ok ""
  | .lit s :: rest => (renderNodes ctx rest).map (fun out => String.mk s ++ out)
  | .var n :: rest =>
    match ctxLookup ctx n with
    | none => .error ("'" ++ n ++ "' is undefined")
    | some v => (renderNodes ctx rest).map (fun out => v ++ out)

/-- `src/main.py:1877` `render_html` on the modelled template fragment:
`jinja_env.from_string(template_text).render(**data)`. -/
def render_html (templateText : String) (data : PyDict) :
    Except String String := do
  let nodes ← parseTmpl templateText
  renderNodes data nodes

example : render_html "Hello {{ name }}" [("name", "Ana")] = .ok "Hello Ana" := rfl

example : render_html "Hello {{ name }}" [] = .error "'name' is undefined" := rfl

/-!
## Round-trip serialization (spec-side, claim C4)

The round-trip property speaks of "serializing its rows back to delimited
text in header order (with the same delimiter)".  The serializer below
follows those words: one header line plus one line per row with the cell of
each header (in header order, absent keys as empty), every field written
CSV-quoted with doubled quote characters, lines joined by a newline.
-/

/-- Double each quote character (the CSV quoting escape). -/
def escQ : List Char → List Char
  | [] => []
  | c :: rest => if c = '"' then '"' :: '"' :: escQ rest else c :: escQ rest

/-- One quoted CSV field. -/
def writeCellL (s : List Char) : List Char :=
  '"' :: (escQ s ++ ['"'])

/-- One CSV record: quoted fields joined by the delimiter. -/
def writeRowL (d : Char) : List (List Char) → List Char
  | [] => []
  | [c] => writeCellL c
  | c :: rest => writeCellL c ++ d :: writeRowL d rest

/-- Join records with newlines. -/
def joinLines : List (List Char) → List Char
  | [] => []
  | [l] => l
  | l :: rest => l ++ '\n' :: joinLines rest

/-- One CSV record from a list of cell strings. -/
def writeRowS (d : Char) (r : List String) : List Char :=
  writeRowL d (r.map String.toList)

/-- The cells of one parsed row read back in header order (absent keys as
empty strings). -/
def rowCells (headers : List String) (r : PyDict) : List String :=
  headers.map (fun h => dictGetD r h "")

/-- Serialize a parsed table back to delimited text: header line first,
then each row's cells in header order. -/
def serializeTable (d : Char) (headers : List String) (rows : List PyDict) :
    String :=
  String.mk (joinLines
    ((headers :: rows.map (rowCells headers)).map (writeRowS d)))

example :
    serializeTable ',' ["a", "b"] [[("a", "1"), ("b", "2")]]
      = "\"a\",\"b\"\n\"1\",\"2\"" := rfl

example :
    parse_csv_text (serializeTable ',' ["a", "b"] [[("a", "1"), ("b", "2")]])
        ',' true
      = .ok ⟨["a", "b"], [[("a", "1"), ("b", "2")]], false, ',', 1⟩ := rfl

/-!
## Theorems
-/

/-- Compare two optional offsets: both present and the first strictly
smaller. -/
def optLt : Option Nat → Option Nat → Bool
  | some i, some j => i < j
  | _, _ => false

/-- A hoftalon-style rendered document containing all six section headers
but with section 5 before section 4. -/
def swappedSectionsDoc : String :=
  "<h1>RELATÓRIO TÉCNICO DE INVENTÁRIO</h1>" ++
  "<h2>1. OBJETIVO</h2><h2>2. ESCOPO</h2><h2>3. METODOLOGIA</h2>" ++
  "<h2>5. PLANO DE AÇÃO</h2><h2>4. RESULTADOS</h2>" ++
  "<h2>6. ACHADOS / OBSERVAÇÕES</h2>"

set_option maxRecDepth 100000 in
/-- C2: the rendered document `swappedSectionsDoc` has its section-5 header
strictly before its section-4 header, yet the structural-validation gate of
`render_with_tables` accepts it, because `validate_hoftalon_output` is a
no-op returning `None` for every output.  The claimed `SectionOutOfOrder`
rejection does not happen. -/
theorem C2_swapped_sections_accepted :
    optLt (strFind "5. PLANO DE AÇÃO" swappedSectionsDoc)
        (strFind "4. RESULTADOS" swappedSectionsDoc) = true ∧
    hoftalon_output_gate swappedSectionsDoc [] = .ok swappedSectionsDoc ∧
    (∀ output tablesMeta, validate_hoftalon_output output tablesMeta = none) :=
  ⟨by decide, rfl, fun _ _ => rfl⟩

/-- An otherwise plausible hoftalon document fragment containing the
configured forbidden term "sql" as a whole word. -/
def forbiddenTermDoc : String :=
  "<h2>1. OBJETIVO</h2><p>Resumo da listagem sql do inventario</p>"

/-- C3: `find_forbidden_terms` does detect the planted whole-word "sql"
(and does not match "id" inside "identifier"), but the render-with-tables
gate still accepts the document because `validate_hoftalon_output` never
consults the scan — it returns `None` unconditionally.  The claimed
`ForbiddenTerm` rejection does not happen. -/
theorem C3_forbidden_term_not_enforced :
    find_forbidden_terms forbiddenTermDoc = ["sql"] ∧
    find_forbidden_terms "<p>identifier</p>" = [] ∧
    hoftalon_output_gate forbiddenTermDoc [] = .ok forbiddenTermDoc :=
  ⟨rfl, rfl, rfl⟩

/-- C7: `render_html_safe` returns exactly one of an output or an error —
never both populated and never neither — and when evaluation succeeds but
the output exceeds `MAX_OUTPUT_CHARS` (1,000,000) it returns the
output-too-large error with no output. -/
theorem C7_render_result_exclusive :
    (∀ r : EvalOutcome,
      ((render_html_safe r).1.isSome ∧ (render_html_safe r).2 = none) ∨
      ((render_html_safe r).1 = none ∧ (render_html_safe r).2.isSome)) ∧
    (∀ output : String,
      render_html_safe (.ok output) =
        if MAX_OUTPUT_CHARS < output.length then
          (none, some "Saida muito longa (max 1000000 caracteres).")
        else (some output, none)) := by
  constructor
  · intro r
    cases r with
    | ok output =>
      by_cases h : MAX_OUTPUT_CHARS < output.length
      · right; simp [render_html_safe, h]
      · left; simp [render_html_safe, h]
    | exc m => right; simp [render_html_safe]
    | timeout => right; simp [render_html_safe]
  · intro output
    simp [render_html_safe]

/-- If some node of a parsed template references a variable missing from
the context, evaluation under StrictUndefined fails. -/
theorem renderNodes_error_of_missing (ctx : PyDict) :
    ∀ nodes : List TmplNode,
      (∃ n, TmplNode.var n ∈ nodes ∧ ctxLookup ctx n = none) →
      ∃ e, renderNodes ctx nodes = .error e := by
  intro nodes
  induction nodes with
  | nil => rintro ⟨n, hn, _⟩; simp at hn
  | cons node rest ih =>
    rintro ⟨n, hn, hmiss⟩
    rcases List.mem_cons.mp hn with h | h
    · subst h
      simp only [renderNodes, hmiss]
      exact ⟨"'" ++ n ++ "' is undefined", rfl⟩
    · cases node with
      | lit s =>
        obtain ⟨e, he⟩ := ih ⟨n, h, hmiss⟩
        exact ⟨e, by simp only [renderNodes, he]; rfl⟩
      | var m =>
        cases hm : ctxLookup ctx m with
        | none => exact ⟨"'" ++ m ++ "' is undefined", by simp only [renderNodes, hm]⟩
        | some v =>
          obtain ⟨e, he⟩ := ih ⟨n, h, hmiss⟩
          exact ⟨e, by simp only [renderNodes, hm, he]; rfl⟩

/-- C6: the scenario template renders "Hello Ana" with `name` bound, fails
with an undefined-variable error with the empty context, and in general
every template whose parsed form references a variable missing from the
context fails the render (StrictUndefined), rather than substituting an
empty string. -/
theorem C6_strict_undefined :
    render_html "Hello {{ name }}" [("name", "Ana")] = .ok "Hello Ana" ∧
    render_html "Hello {{ name }}" [] = .error "'name' is undefined" ∧
    (∀ (t : String) (ctx : PyDict) (nodes : List TmplNode),
      parseTmpl t = .ok nodes →
      (∃ n, TmplNode.var n ∈ nodes ∧ ctxLookup ctx n = none) →
      ∃ e, render_html t ctx = .error e) := by
  refine ⟨rfl, rfl, ?_⟩
  intro t ctx nodes hparse hmiss
  obtain ⟨e, he⟩ := renderNodes_error_of_missing ctx nodes hmiss
  refine ⟨e, ?_⟩
  simp only [render_html, bind, Except.bind, hparse, he]

/-- Witness for C6: the general undefined-reference conjunct applied to the
scenario template with the empty context. -/
theorem C6_strict_undefined_witness :
    ∃ e, render_html "Hello {{ name }}" [] = .error e :=
  C6_strict_undefined.2.2 "Hello {{ name }}" []
    [TmplNode.lit "Hello ".toList, TmplNode.var "name"] rfl
    ⟨"name", by decide, rfl⟩

/-- `toList` distributes over string append. -/
theorem toList_append (a b : String) : (a ++ b).toList = a.toList ++ b.toList :=
  String.data_append a b

/-- `countChar` is additive over append. -/
theorem countChar_append (c : Char) (a b : String) :
    countChar c (a ++ b) = countChar c a + countChar c b := by
  simp [countChar, toList_append, List.count_append]



/-- `countChar` over a concatenation of strings. -/
theorem countChar_concat (c : Char) :
    ∀ L : List String, countChar c (concatStrings L) = (L.map (countChar c)).sum := by
  intro L
  induction L with
  | nil => rfl
  | cons x xs ih => simp [concatStrings, countChar_append, ih]

/-- `html_escape` output never contains a raw `<` or `>`. -/
theorem countChar_html_escape (s : String) (c : Char)
    (hc : c = '<' ∨ c = '>') : countChar c (html_escape s) = 0 := by
  have step : ∀ a : Char, countChar c (escapeChar a) = 0 := by
    intro a
    unfold escapeChar
    rcases hc with h | h <;> subst h <;>
      split_ifs with h1 h2 h3 h4 h5 <;>
        simp_all [countChar, List.count_cons, List.count_nil, String.toList]
  unfold html_escape
  rw [countChar_concat, List.map_map]
  apply List.sum_eq_zero
  intro x hx
  obtain ⟨a, _, rfl⟩ := List.mem_map.mp hx
  simpa using step a

/-- Sum of a constant map. -/
theorem sum_map_const {α : Type} (l : List α) (k : Nat) :
    (l.map (fun _ => k)).sum = l.length * k := by
  induction l with
  | nil => simp
  | cons x xs ih => simp [ih, Nat.succ_mul, Nat.add_comm]

/-- Python truthiness of the optional caption argument. -/
def captionTruthy : Option String → Bool
  | some c => c ≠ ""
  | none => false

/-- `countChar` of the caption fragment. -/
theorem countChar_captionHtmlOf (caption : Option String) (c : Char)
    (hc : c = '<' ∨ c = '>') :
    countChar c (captionHtmlOf caption)
      = (if captionTruthy caption then 2 else 0) := by
  cases caption with
  | none => rcases hc with h | h <;> subst h <;> rfl
  | some cc =>
    by_cases hcc : cc = ""
    · subst hcc
      rcases hc with h | h <;> subst h <;> rfl
    · have h1 : captionHtmlOf (some cc)
          = "<caption>" ++ html_escape cc ++ "</caption>" := by
        show (if cc ≠ "" then "<caption>" ++ html_escape cc ++ "</caption>" else "")
            = "<caption>" ++ html_escape cc ++ "</caption>"
        rw [if_pos hcc]
      have h2 : captionTruthy (some cc) = true := by
        unfold captionTruthy
        simp [hcc]
      rw [h1, h2, countChar_append, countChar_append,
        countChar_html_escape _ _ hc, if_pos rfl]
      rcases hc with h | h <;> subst h <;> rfl

set_option maxHeartbeats 1000000 in
/-- C10: every header name, cell value, and caption is HTML-escaped before
being embedded by `build_html_table`: the number of `<` (and `>`)
characters in the generated fragment is a function of the shape of the
input alone (the fixed markup), never of the text content — escaped data
contributes no angle brackets — and a cell missing from a row renders as
the empty cell `<td></td>`. -/
theorem C10_build_html_table_escapes :
    (∀ (columns : List String) (rows : List PyDict) (caption : Option String)
       (c : Char), c = '<' ∨ c = '>' →
      countChar c (build_html_table columns rows caption)
        = 10 + 2 * columns.length + rows.length * (2 + 2 * columns.length)
            + (if captionTruthy caption then 2 else 0)) ∧
    (∀ s : String, countChar '<' (html_escape s) = 0 ∧
      countChar '>' (html_escape s) = 0) ∧
    (∀ (row : PyDict) (col : String), dictContains row col = false →
      tableCell row col = "<td></td>") := by
  refine ⟨?_, ?_, ?_⟩
  · intro columns rows caption c hc
    have hcell : ∀ row col, countChar c (tableCell row col) = 2 := by
      intro row col
      unfold tableCell
      rw [countChar_append, countChar_append, countChar_html_escape _ _ hc]
      rcases hc with h | h <;> subst h <;> rfl
    have hrow : ∀ row, countChar c (tableRow columns row)
        = 2 + 2 * columns.length := by
      intro row
      unfold tableRow
      rw [countChar_append, countChar_append, countChar_concat, List.map_map]
      have heq : columns.map (countChar c ∘ tableCell row)
          = columns.map (fun _ => 2) :=
        List.map_congr_left (fun col _ => hcell row col)
      rw [heq, sum_map_const]
      rcases hc with h | h <;> subst h
      · rw [show countChar '<' "<tr>" = 1 from rfl,
          show countChar '<' "</tr>" = 1 from rfl]
        omega
      · rw [show countChar '>' "<tr>" = 1 from rfl,
          show countChar '>' "</tr>" = 1 from rfl]
        omega
    have hhead : countChar c
        (concatStrings (columns.map (fun col =>
          "<th>" ++ html_escape col ++ "</th>")))
          = 2 * columns.length := by
      rw [countChar_concat, List.map_map]
      have heq : columns.map
            (countChar c ∘ fun col => "<th>" ++ html_escape col ++ "</th>")
          = columns.map (fun _ => 2) := by
        refine List.map_congr_left (fun col _ => ?_)
        show countChar c ("<th>" ++ html_escape col ++ "</th>") = 2
        rw [countChar_append, countChar_append, countChar_html_escape _ _ hc]
        rcases hc with h | h <;> subst h <;> rfl
      rw [heq, sum_map_const]
      omega
    have hbody : countChar c (concatStrings (rows.map (tableRow columns)))
        = rows.length * (2 + 2 * columns.length) := by
      rw [countChar_concat, List.map_map]
      have heq : rows.map (countChar c ∘ tableRow columns)
          = rows.map (fun _ => 2 + 2 * columns.length) :=
        List.map_congr_left (fun row _ => hrow row)
      rw [heq, sum_map_const, Nat.mul_comm]
    unfold build_html_table
    simp only
    rw [countChar_append, countChar_append, countChar_append, countChar_append,
      countChar_append, countChar_append, countChar_append, countChar_append,
      countChar_append, hhead, hbody, countChar_captionHtmlOf _ _ hc]
    rcases hc with h | h <;> subst h
    · rw [show countChar '<' ("<div class=\"table-wrap\">" ++ "<table>") = 2 from rfl,
        show countChar '<' "<thead><tr>" = 2 from rfl,
        show countChar '<' "</tr></thead>" = 2 from rfl,
        show countChar '<' "<tbody>" = 1 from rfl,
        show countChar '<' "</tbody>" = 1 from rfl,
        show countChar '<' "</table>" = 1 from rfl,
        show countChar '<' "</div>" = 1 from rfl]
      omega
    · rw [show countChar '>' ("<div class=\"table-wrap\">" ++ "<table>") = 2 from rfl,
        show countChar '>' "<thead><tr>" = 2 from rfl,
        show countChar '>' "</tr></thead>" = 2 from rfl,
        show countChar '>' "<tbody>" = 1 from rfl,
        show countChar '>' "</tbody>" = 1 from rfl,
        show countChar '>' "</table>" = 1 from rfl,
        show countChar '>' "</div>" = 1 from rfl]
      omega
  · intro s
    exact ⟨countChar_html_escape s '<' (Or.inl rfl),
      countChar_html_escape s '>' (Or.inr rfl)⟩
  · intro row col h
    have hnone : row.find? (fun p => p.1 == col) = none := by
      apply List.find?_eq_none.mpr
      intro x hx
      simp only [beq_iff_eq]
      intro hxcol
      have hmem : col ∈ dictKeys row := by
        unfold dictKeys
        exact List.mem_map.mpr ⟨x, hx, hxcol⟩
      have : dictContains row col = true := by
        unfold dictContains
        simpa using hmem
      rw [h] at this
      exact Bool.false_ne_true this
    have hget : dictGetD row col "" = "" := by
      unfold dictGetD
      rw [hnone]
    unfold tableCell
    rw [hget]
    rfl

/-- Witness for C10: the angle-bracket count of a concrete one-column,
one-row table with an injection attempt in the cell, and a concrete row
lacking the requested column rendering an empty cell. -/
theorem C10_build_html_table_escapes_witness :
    countChar '<' (build_html_table ["a"] [[("a", "<script>")]] none)
      = 10 + 2 * 1 + 1 * (2 + 2 * 1) + 0 ∧
    dictContains [("a", "1")] "b" = false ∧
    tableCell [("a", "1")] "b" = "<td></td>" := by
  refine ⟨?_, rfl, C10_build_html_table_escapes.2.2 [("a", "1")] "b" rfl⟩
  have h := C10_build_html_table_escapes.1 ["a"] [[("a", "<script>")]] none '<'
    (Or.inl rfl)
  simpa using h

/-- A store with no templates. -/
def emptyStore : TemplateStore := ⟨fun _ => none, fun _ _ => none⟩

set_option maxRecDepth 100000 in
/-- C9 counterexample: a table-augmented render request in the hoftalon
report style with `template`, `template_id` and
`template_key`/`template_version` all absent is NOT rejected with a
validation error — the template-resolution stage succeeds with the
built-in `HOFTALON_BASE_TEMPLATE`. -/
theorem C9_counterexample :
    render_with_tables_template emptyStore
        { report_style := some "hoftalon" } = .ok HOFTALON_BASE_TEMPLATE := rfl

set_option maxRecDepth 100000 in
/-- C9 (amended): exactly one of `template`, `template_id`, or
`template_key`+`template_version` is consulted to resolve the template
source (priority: id, then key/version, then inline — the result is
independent of the inline template whenever an id or key/version is
present), and a request with all three absent is rejected with a
validation error — except for table-augmented requests in the hoftalon
report style, where the built-in `HOFTALON_BASE_TEMPLATE` is used
instead. -/
theorem C9_template_resolution_amended :
    (∀ (store : TemplateStore) (p : RenderRequest),
      p.template = none → p.template_id = none → keyTruthy p = false →
      resolve_template_for_payload store p
        = .error "Template ou template_id e obrigatorio.") ∧
    (∀ (store : TemplateStore) (p : RenderWithTablesRequest),
      (p.report_style = none ∨ p.report_style = some "default") →
      p.template = none → p.template_id = none → p.template_key = none →
      render_with_tables_template store p
        = .error "Template ou template_id e obrigatorio.") ∧
    (∀ (store : TemplateStore) (p : RenderWithTablesRequest),
      p.report_style = some "hoftalon" → p.template = none →
      p.template_id = none → p.template_key = none →
      render_with_tables_template store p = .ok HOFTALON_BASE_TEMPLATE) ∧
    (∀ (store : TemplateStore) (p : RenderRequest) (t' : Option String),
      p.template_id.isSome = true →
      resolve_template_for_payload store p
        = resolve_template_for_payload store { p with template := t' }) ∧
    (∀ (store : TemplateStore) (p : RenderRequest) (t' : Option String),
      p.template_id = none → keyTruthy p = true →
      p.template_version.isSome = true →
      resolve_template_for_payload store p
        = resolve_template_for_payload store { p with template := t' }) := by
  refine ⟨?_, ?_, ?_, ?_, ?_⟩
  · intro store p h1 h2 h3
    obtain ⟨t, tid, tk, tv⟩ := p
    simp only at h1 h2 h3
    subst h1
    subst h2
    unfold resolve_template_for_payload
    simp only
    rw [if_neg]
    intro hand
    rw [h3] at hand
    exact Bool.false_ne_true hand.1
  · intro store p hstyle h1 h2 h3
    obtain ⟨t, tid, tk, tv, rs⟩ := p
    simp only at h1 h2 h3
    subst h1
    subst h2
    subst h3
    rcases hstyle with h | h <;> simp only at h <;> subst h <;> rfl
  · intro store p hstyle h1 h2 h3
    obtain ⟨t, tid, tk, tv, rs⟩ := p
    simp only at h1 h2 h3 hstyle
    subst h1
    subst h2
    subst h3
    subst hstyle
    rfl
  · intro store p t' hid
    obtain ⟨t, tid, tk, tv⟩ := p
    cases tid with
    | none => simp at hid
    | some i => rfl
  · intro store p t' hid hkey hver
    obtain ⟨t, tid, tk, tv⟩ := p
    simp only at hid
    subst hid
    dsimp only at hkey hver ⊢
    have hkey' : keyTruthy ⟨t', none, tk, tv⟩ = true := hkey
    unfold resolve_template_for_payload
    dsimp only
    rw [if_pos ⟨hkey, hver⟩, if_pos ⟨hkey', hver⟩]

/-- Witness for C9: the amended all-absent rejection applied to the empty
render request against the empty store. -/
theorem C9_template_resolution_amended_witness :
    resolve_template_for_payload emptyStore {}
      = .error "Template ou template_id e obrigatorio." :=
  C9_template_resolution_amended.1 emptyStore {} rfl rfl rfl

/-- The content loop succeeds exactly when every header's value matches. -/
theorem checkRowContent_ok_iff (idx : Nat) (csvRow llmRow : PyDict) :
    ∀ hs : List String,
      checkRowContent idx csvRow llmRow hs = .ok () ↔
        ∀ col ∈ hs, dictGetD llmRow col "" = dictGetD csvRow col "" := by
  intro hs
  induction hs with
  | nil => simp [checkRowContent]
  | cons h rest ih =>
    simp only [checkRowContent]
    by_cases hv : dictGetD llmRow h "" ≠ dictGetD csvRow h ""
    · rw [if_pos hv]
      simp only [List.mem_cons]
      constructor
      · intro hcontra; exact absurd hcontra (by simp)
      · intro hall; exact absurd (hall h (Or.inl rfl)) hv
    · rw [if_neg hv]
      push_neg at hv
      rw [ih]
      constructor
      · intro hall col hcol
        rcases List.mem_cons.mp hcol with h1 | h1
        · subst h1; exact hv
        · exact hall col h1
      · intro hall col hcol
        exact hall col (List.mem_cons_of_mem h hcol)

/-- The content loop reports the first differing header; if exactly the
header `c` differs, it reports `c` with the CSV value as expected and the
candidate value as actual. -/
theorem checkRowContent_error_at (idx : Nat) (csvRow llmRow : PyDict)
    (c : String) :
    ∀ hs : List String, c ∈ hs →
      (∀ col ∈ hs, col ≠ c → dictGetD llmRow col "" = dictGetD csvRow col "") →
      dictGetD llmRow c "" ≠ dictGetD csvRow c "" →
      checkRowContent idx csvRow llmRow hs
        = .error (.contentMismatch idx c (dictGetD csvRow c "")
            (dictGetD llmRow c "")) := by
  intro hs
  induction hs with
  | nil => intro hc; simp at hc
  | cons h rest ih =>
    intro hc hpre hne
    by_cases hhc : h = c
    · subst hhc
      simp only [checkRowContent]
      rw [if_pos hne]
    · have hval : dictGetD llmRow h "" = dictGetD csvRow h "" :=
        hpre h (List.mem_cons_self h rest) hhc
      simp only [checkRowContent]
      rw [if_neg (by simp [hval])]
      refine ih ?_ ?_ hne
      · rcases List.mem_cons.mp hc with h1 | h1
        · exact absurd h1.symm hhc
        · exact h1
      · intro col hcol hcne
        exact hpre col (List.mem_cons_of_mem h hcol) hcne

/-- Discarding bind on `Except`: error short-circuits. -/
theorem except_seq_error {E A : Type} (e : E) (k : Unit → Except E A) :
    (Except.error e >>= k) = Except.error e := rfl

/-- Discarding bind on `Except`: ok continues. -/
theorem except_seq_ok {E A : Type} (k : Unit → Except E A) :
    (Except.ok () >>= k) = k () := rfl

/-- A single row's checks succeed exactly when the candidate row has no
missing and no extra columns and all values match. -/
theorem checkRow_ok_iff (headers : List String) (idx : Nat)
    (csvRow llmRow : PyDict) :
    checkRow headers idx csvRow llmRow = .ok () ↔
      ((∀ col ∈ headers, dictContains llmRow col = true) ∧
       (∀ k ∈ dictKeys llmRow, k ∈ headers) ∧
       (∀ col ∈ headers, dictGetD llmRow col "" = dictGetD csvRow col "")) := by
  unfold checkRow
  by_cases hm : headers.filter (fun col => !dictContains llmRow col) = []
  · rw [if_neg (not_not_intro hm)]
    by_cases hx : (dictKeys llmRow).filter (fun col => !headers.contains col) = []
    · rw [if_neg (not_not_intro hx)]
      rw [checkRowContent_ok_iff]
      have hmiss : ∀ col ∈ headers, dictContains llmRow col = true := by
        intro col hcol
        have h1 := (List.filter_eq_nil_iff.mp hm) col hcol
        simpa using h1
      have hextra : ∀ k ∈ dictKeys llmRow, k ∈ headers := by
        intro k hk
        have h1 := (List.filter_eq_nil_iff.mp hx) k hk
        simp only [Bool.not_eq_true', Bool.not_eq_false] at h1
        have h2 : headers.contains k = true := by
          revert h1
          cases headers.contains k <;> simp
        simpa using h2
      constructor
      · intro hval; exact ⟨hmiss, hextra, hval⟩
      · intro h; exact h.2.2
    · rw [if_pos (by simpa using hx)]
      constructor
      · intro hcontra; exact absurd hcontra (by simp)
      · rintro ⟨_, hextra, _⟩
        exfalso
        apply hx
        apply List.filter_eq_nil_iff.mpr
        intro k hk
        have hck : headers.contains k = true := by
          simpa using hextra k hk
        rw [hck]
        decide
  · rw [if_pos (by simpa using hm)]
    constructor
    · intro hcontra; exact absurd hcontra (by simp)
    · rintro ⟨hmiss, _, _⟩
      exfalso
      apply hm
      apply List.filter_eq_nil_iff.mpr
      intro col hcol
      simp [hmiss col hcol]

/-- The row loop succeeds exactly when every indexed row check succeeds
(for lists of equal length). -/
theorem checkRows_ok_iff (headers : List String) :
    ∀ (cs ls : List PyDict) (idx : Nat), cs.length = ls.length →
      (checkRows headers idx cs ls = .ok () ↔
        ∀ j < cs.length,
          checkRow headers (idx + j) (cs.getD j []) (ls.getD j []) = .ok ()) := by
  intro cs
  induction cs with
  | nil => intro ls idx _; simp [checkRows]
  | cons c cs ih =>
    intro ls idx hlen
    cases ls with
    | nil => simp at hlen
    | cons l ls =>
      simp only [List.length_cons, Nat.succ.injEq] at hlen
      show (checkRow headers idx c l >>=
        fun _ => checkRows headers (idx + 1) cs ls) = .ok () ↔ _
      cases hcr : checkRow headers idx c l with
      | error e =>
        rw [except_seq_error]
        constructor
        · intro hcontra; exact absurd hcontra (by simp)
        · intro hall
          have h0 := hall 0 (by simp)
          rw [List.getD_cons_zero, List.getD_cons_zero, Nat.add_zero, hcr] at h0
          exact absurd h0 (by simp)
      | ok u =>
        cases u
        rw [except_seq_ok, ih ls (idx + 1) hlen]
        constructor
        · intro hall j hj
          cases j with
          | zero =>
            rw [List.getD_cons_zero, List.getD_cons_zero, Nat.add_zero]
            exact hcr
          | succ j' =>
            have h1 := hall j' (Nat.lt_of_succ_lt_succ hj)
            rw [List.getD_cons_succ, List.getD_cons_succ]
            have harith : idx + (j' + 1) = idx + 1 + j' := by omega
            rw [harith]
            exact h1
        · intro hall j hj
          have h1 := hall (j + 1) (Nat.succ_lt_succ hj)
          rw [List.getD_cons_succ, List.getD_cons_succ] at h1
          have harith : idx + (j + 1) = idx + 1 + j := by omega
          rw [harith] at h1
          exact h1

/-- The row loop propagates the first failing row's error. -/
theorem checkRows_error_at (headers : List String) :
    ∀ (cs : List PyDict) (ls : List PyDict) (idx i : Nat) (e : CsvSpecError),
      i < cs.length → i < ls.length →
      (∀ j < i, checkRow headers (idx + j) (cs.getD j []) (ls.getD j []) = .ok ()) →
      checkRow headers (idx + i) (cs.getD i []) (ls.getD i []) = .error e →
      checkRows headers idx cs ls = .error e := by
  intro cs
  induction cs with
  | nil => intro ls idx i e hi; simp at hi
  | cons c cs ih =>
    intro ls idx i e hi hil hpre herr
    cases ls with
    | nil => simp at hil
    | cons l ls =>
      show (checkRow headers idx c l >>=
        fun _ => checkRows headers (idx + 1) cs ls) = .error e
      cases i with
      | zero =>
        rw [List.getD_cons_zero, List.getD_cons_zero, Nat.add_zero] at herr
        rw [herr, except_seq_error]
      | succ i' =>
        have h0 : checkRow headers idx c l = .ok () := by
          have := hpre 0 (Nat.succ_pos i')
          rw [List.getD_cons_zero, List.getD_cons_zero, Nat.add_zero] at this
          exact this
        rw [h0, except_seq_ok]
        rw [List.getD_cons_succ, List.getD_cons_succ] at herr
        refine ih ls (idx + 1) i' e (Nat.lt_of_succ_lt_succ hi)
          (Nat.lt_of_succ_lt_succ hil) ?_ ?_
        · intro j hj
          have h1 := hpre (j + 1) (Nat.succ_lt_succ hj)
          rw [List.getD_cons_succ, List.getD_cons_succ] at h1
          have harith : idx + (j + 1) = idx + 1 + j := by omega
          rw [harith] at h1
          exact h1
        · have harith : idx + (i' + 1) = idx + 1 + i' := by omega
          rw [harith] at herr
          exact herr

/-- Setting an existing key leaves the key sequence unchanged. -/
theorem dictKeys_dictSet (k v : String) :
    ∀ d : PyDict, dictContains d k = true →
      dictKeys (dictSet d k v) = dictKeys d := by
  intro d
  induction d with
  | nil => intro h; simp [dictContains, dictKeys] at h
  | cons p rest ih =>
    intro h
    obtain ⟨k', v'⟩ := p
    unfold dictSet
    by_cases hk : k' = k
    · rw [if_pos (by simp [hk])]
      simp [dictKeys, hk]
    · rw [if_neg (by simp [hk])]
      have hrest : dictContains rest k = true := by
        simp only [dictContains, dictKeys, List.map_cons, List.contains_cons] at h
        rcases Bool.or_eq_true_iff.mp h with h1 | h1
        · exact absurd (beq_iff_eq.mp h1).symm hk
        · exact h1
      unfold dictKeys
      simp only [List.map_cons]
      rw [show List.map Prod.fst (dictSet rest k v) = List.map Prod.fst rest
        from ih hrest]

/-- Setting an existing key updates the value read back for that key. -/
theorem dictGetD_dictSet_self (k v : String) :
    ∀ d : PyDict, dictGetD (dictSet d k v) k "" = v := by
  intro d
  induction d with
  | nil => simp [dictSet, dictGetD, List.find?]
  | cons p rest ih =>
    obtain ⟨k', v'⟩ := p
    unfold dictSet
    by_cases hk : k' = k
    · rw [if_pos (by simp [hk])]
      simp [dictGetD, List.find?]
    · rw [if_neg (by simp [hk])]
      unfold dictGetD
      rw [List.find?_cons_of_neg _ (by simp [hk])]
      exact ih

/-- Setting a key does not change other keys' values. -/
theorem dictGetD_dictSet_ne (k v col : String) (hne : col ≠ k) :
    ∀ d : PyDict, dictGetD (dictSet d k v) col "" = dictGetD d col "" := by
  intro d
  induction d with
  | nil =>
    simp only [dictSet, dictGetD]
    rw [List.find?_cons_of_neg _ (by simp [Ne.symm hne])]
  | cons p rest ih =>
    obtain ⟨k', v'⟩ := p
    unfold dictSet
    by_cases hk : k' = k
    · rw [if_pos (by simp [hk])]
      unfold dictGetD
      rw [List.find?_cons_of_neg _ (by simp [Ne.symm hne]),
        List.find?_cons_of_neg _ (by simp [hk, Ne.symm hne])]
    · rw [if_neg (by simp [hk])]
      unfold dictGetD
      by_cases hcol : k' = col
      · rw [List.find?_cons_of_pos _ (by simp [hcol]),
          List.find?_cons_of_pos _ (by simp [hcol])]
      · rw [List.find?_cons_of_neg _ (by simp [hcol]),
          List.find?_cons_of_neg _ (by simp [hcol])]
        exact ih

/-- `getD` after `set` at the same (in-range) index. -/
theorem getD_set_self {α : Type} (l : List α) (i : Nat) (x dflt : α)
    (h : i < l.length) : (l.set i x).getD i dflt = x := by
  simp [List.getD, List.getElem?_set_self, h]

/-- `getD` after `set` at a different index. -/
theorem getD_set_ne {α : Type} (l : List α) (i j : Nat) (x dflt : α)
    (h : i ≠ j) : (l.set i x).getD j dflt = l.getD j dflt := by
  simp [List.getD, List.getElem?_set_ne h]

/-- Inversion of `validate_against_csv` success. -/
theorem validate_against_csv_ok_inv (spec : TableSpec) (headers : List String)
    (rows : List PyDict) :
    validate_against_csv spec headers rows = .ok () →
      spec.columns = headers ∧ spec.rows.length = rows.length ∧
        checkRows headers 0 rows spec.rows = .ok () := by
  unfold validate_against_csv
  by_cases hcols : spec.columns = headers
  · rw [if_neg (not_not_intro hcols)]
    by_cases hlen : spec.rows.length = rows.length
    · rw [if_neg (not_not_intro hlen)]
      intro h
      exact ⟨hcols, hlen, h⟩
    · rw [if_pos hlen]
      intro h
      exact absurd h (by simp)
  · rw [if_pos hcols]
    intro h
    exact absurd h (by simp)

/-- C1: `validate_against_csv` succeeds exactly when the candidate columns
equal the CSV headers (same length, order, strings), the row counts agree,
every candidate row has exactly the headers as keys, and every cell value
equals the corresponding source cell; and mutating a single cell of an
otherwise valid spec to a different value yields a content-mismatch error
naming that exact row index and column with the expected (CSV) and actual
(mutated) values. -/
theorem C1_validator_soundness :
    (∀ (spec : TableSpec) (headers : List String) (rows : List PyDict),
      validate_against_csv spec headers rows = .ok () ↔
        (spec.columns = headers ∧ spec.rows.length = rows.length ∧
         ∀ i < rows.length,
           (∀ col ∈ headers, dictContains (spec.rows.getD i []) col = true) ∧
           (∀ k ∈ dictKeys (spec.rows.getD i []), k ∈ headers) ∧
           (∀ col ∈ headers,
             dictGetD (spec.rows.getD i []) col ""
               = dictGetD (rows.getD i []) col ""))) ∧
    (∀ (spec : TableSpec) (headers : List String) (rows : List PyDict)
       (i : Nat) (col newVal : String),
      validate_against_csv spec headers rows = .ok () →
      i < rows.length → col ∈ headers →
      newVal ≠ dictGetD (rows.getD i []) col "" →
      validate_against_csv
          { spec with rows :=
              spec.rows.set i (dictSet (spec.rows.getD i []) col newVal) }
          headers rows
        = .error (.contentMismatch i col (dictGetD (rows.getD i []) col "")
            newVal)) := by
  constructor
  · intro spec headers rows
    constructor
    · intro h
      obtain ⟨hcols, hlen, hrows⟩ := validate_against_csv_ok_inv _ _ _ h
      refine ⟨hcols, hlen, ?_⟩
      intro i hi
      have hall := (checkRows_ok_iff headers rows spec.rows 0 hlen.symm).mp hrows
      have h1 := hall i hi
      rw [Nat.zero_add] at h1
      exact (checkRow_ok_iff headers i (rows.getD i []) (spec.rows.getD i [])).mp h1
    · rintro ⟨hcols, hlen, hall⟩
      unfold validate_against_csv
      rw [if_neg (not_not_intro hcols), if_neg (not_not_intro hlen)]
      rw [checkRows_ok_iff headers rows spec.rows 0 hlen.symm]
      intro j hj
      rw [Nat.zero_add]
      exact (checkRow_ok_iff headers j (rows.getD j []) (spec.rows.getD j [])).mpr
        (hall j hj)
  · intro spec headers rows i col newVal hvalid hi hcol hne
    obtain ⟨hcols, hlen, hrows⟩ := validate_against_csv_ok_inv _ _ _ hvalid
    have hall := (checkRows_ok_iff headers rows spec.rows 0 hlen.symm).mp hrows
    have hrowok := hall i hi
    rw [Nat.zero_add] at hrowok
    obtain ⟨hcont, hkeys, hvals⟩ :=
      (checkRow_ok_iff headers i (rows.getD i []) (spec.rows.getD i [])).mp hrowok
    set origRow := spec.rows.getD i [] with horig
    set newRow := dictSet origRow col newVal with hnewRow
    have hkeysEq : dictKeys newRow = dictKeys origRow :=
      dictKeys_dictSet col newVal origRow (hcont col hcol)
    have hcontNew : ∀ col' ∈ headers, dictContains newRow col' = true := by
      intro col' hcol'
      unfold dictContains
      rw [hkeysEq]
      exact hcont col' hcol'
    unfold validate_against_csv
    simp only
    rw [if_neg (not_not_intro hcols)]
    rw [if_neg (not_not_intro (by
      simpa [List.length_set] using hlen : (spec.rows.set i newRow).length = rows.length))]
    have hilen : i < spec.rows.length := by omega
    apply checkRows_error_at headers rows (spec.rows.set i newRow) 0 i _ hi
      (by simpa [List.length_set] using hilen)
    · intro j hj
      rw [getD_set_ne _ _ _ _ _ (by omega)]
      exact hall j (by omega)
    · rw [getD_set_self _ _ _ _ hilen, Nat.zero_add]
      unfold checkRow
      rw [if_neg (not_not_intro (List.filter_eq_nil_iff.mpr (by
        intro col' hcol'
        simp [hcontNew col' hcol'])))]
      rw [if_neg (not_not_intro (List.filter_eq_nil_iff.mpr (by
        intro k hk
        rw [hkeysEq] at hk
        have : headers.contains k = true := by simpa using hkeys k hk
        rw [this]
        decide)))]
      have hget : dictGetD newRow col "" = newVal :=
        dictGetD_dictSet_self col newVal origRow
      have herr := checkRowContent_error_at i (rows.getD i []) newRow col headers
        hcol
        (by
          intro col' hcol' hcne
          rw [hnewRow, dictGetD_dictSet_ne col newVal col' hcne]
          exact hvals col' hcol')
        (by rw [hget]; exact hne)
      rw [hget] at herr
      exact herr

/-- Witness for C1: the specified scenario — a valid 2×2 spec over headers
`a,b`, then cell (0, "b") mutated from "2" to "9" yields the content
mismatch at row 0, column "b", expected "2", actual "9". -/
theorem C1_validator_soundness_witness :
    validate_against_csv
        { columns := ["a", "b"],
          rows := [[("a", "1"), ("b", "9")], [("a", "3"), ("b", "4")]] }
        ["a", "b"]
        [[("a", "1"), ("b", "2")], [("a", "3"), ("b", "4")]]
      = .error (.contentMismatch 0 "b" "2" "9") := by
  have h := C1_validator_soundness.2
    { columns := ["a", "b"],
      rows := [[("a", "1"), ("b", "2")], [("a", "3"), ("b", "4")]] }
    ["a", "b"]
    [[("a", "1"), ("b", "2")], [("a", "3"), ("b", "4")]]
    0 "b" "9" rfl (by decide) (by decide) (by decide)
  simpa using h

/-- The head of a `dropWhile` result does not satisfy the predicate. -/
theorem dropWhile_head_false (p : Char → Bool) :
    ∀ l : List Char, ∀ h t, l.dropWhile p = h :: t → p h = false := by
  intro l
  induction l with
  | nil => intro h t hcontra; simp at hcontra
  | cons a rest ih =>
    intro h t hdrop
    by_cases ha : p a = true
    · rw [List.dropWhile_cons, if_pos ha] at hdrop
      exact ih h t hdrop
    · rw [List.dropWhile_cons, if_neg ha] at hdrop
      cases hdrop
      simpa using ha

/-- `dropWhile` is the identity when the head fails the predicate. -/
theorem dropWhile_eq_self_of_head (p : Char → Bool) (h : Char) (t : List Char)
    (hh : p h = false) : (h :: t).dropWhile p = h :: t := by
  simp [List.dropWhile_cons, hh]

/-- Length of `padTruncate` is always exactly `n`. -/
theorem padTruncate_length (cells : List String) (n : Nat) :
    (padTruncate cells n).length = n := by
  simp only [padTruncate, List.length_take, List.length_append,
    List.length_replicate]
  omega

/-- `dictSet` on a present key preserves length. -/
theorem dictSet_length (k v : String) :
    ∀ d : PyDict, (dictSet d k v).length ≤ d.length + 1 := by
  intro d
  induction d with
  | nil => simp [dictSet]
  | cons p rest ih =>
    obtain ⟨k', v'⟩ := p
    unfold dictSet
    by_cases hk : k' = k
    · rw [if_pos (by simp [hk])]
      simp
    · rw [if_neg (by simp [hk])]
      simp only [List.length_cons]
      omega

/-- `dictSet` on a contained key preserves length exactly. -/
theorem dictSet_length_of_contains (k v : String) :
    ∀ d : PyDict, dictContains d k = true →
      (dictSet d k v).length = d.length := by
  intro d
  induction d with
  | nil => intro h; simp [dictContains, dictKeys] at h
  | cons p rest ih =>
    intro h
    obtain ⟨k', v'⟩ := p
    unfold dictSet
    by_cases hk : k' = k
    · rw [if_pos (by simp [hk])]
      simp
    · rw [if_neg (by simp [hk])]
      have hrest : dictContains rest k = true := by
        simp only [dictContains, dictKeys, List.map_cons, List.contains_cons] at h
        rcases Bool.or_eq_true_iff.mp h with h1 | h1
        · exact absurd (beq_iff_eq.mp h1).symm hk
        · exact h1
      simp [ih hrest]

/-- `pyDictOfPairs` never grows beyond its input length. -/
theorem pyDictOfPairs_length_le (l : List (String × String)) :
    (pyDictOfPairs l).length ≤ l.length := by
  suffices h : ∀ (l : List (String × String)) (acc : PyDict),
      (l.foldl (fun d p => pyDictInsert d p.1 p.2) acc).length
        ≤ acc.length + l.length by
    simpa using h l []
  intro l
  induction l with
  | nil => intro acc; simp
  | cons p rest ih =>
    intro acc
    simp only [List.foldl_cons, List.length_cons]
    refine le_trans (ih (pyDictInsert acc p.1 p.2)) ?_
    have : (pyDictInsert acc p.1 p.2).length ≤ acc.length + 1 := by
      unfold pyDictInsert
      by_cases hc : dictContains acc p.1 = true
      · rw [if_pos hc, dictSet_length_of_contains _ _ _ hc]
        omega
      · rw [if_neg hc]
        simp
    omega

/-- `pyDictOfPairs` is the identity on pair lists with distinct keys
(Python `dict(pairs)` with unique keys preserves order and values). -/
theorem pyDictOfPairs_eq_self (l : List (String × String))
    (h : (l.map Prod.fst).Nodup) : pyDictOfPairs l = l := by
  suffices hgen : ∀ (l : List (String × String)) (acc : PyDict),
      ((acc ++ l).map Prod.fst).Nodup →
      l.foldl (fun d p => pyDictInsert d p.1 p.2) acc = acc ++ l by
    have := hgen l []
    simpa using this h
  intro l
  induction l with
  | nil => intro acc _; simp
  | cons p rest ih =>
    intro acc hnd
    simp only [List.foldl_cons]
    have hnotin : dictContains acc p.1 = false := by
      by_contra hc
      have hc' : dictContains acc p.1 = true := by
        revert hc
        cases dictContains acc p.1 <;> simp
      have hmem : p.1 ∈ acc.map Prod.fst := by
        simpa [dictContains, dictKeys] using hc'
      have hmem2 : p.1 ∈ (p :: rest).map Prod.fst := by simp
      rw [List.map_append] at hnd
      exact (List.nodup_append.mp hnd).2.2 hmem hmem2
    have hins : pyDictInsert acc p.1 p.2 = acc ++ [p] := by
      unfold pyDictInsert
      rw [if_neg (by simp [hnotin])]
    rw [hins]
    have hre : (acc ++ [p]) ++ rest = acc ++ (p :: rest) := by simp
    rw [ih (acc ++ [p]) (by rw [hre]; exact hnd), hre]

/-- `dedupGo` changes nothing when the remaining names are distinct and
unseen. -/
theorem dedupGo_eq_self :
    ∀ (l : List String) (seen : List String),
      l.Nodup → (∀ a ∈ l, seen.count a = 0) → dedupGo seen l = l := by
  intro l
  induction l with
  | nil => intro seen _ _; rfl
  | cons n rest ih =>
    intro seen hnd hcount
    unfold dedupGo
    have hzero : seen.count n = 0 := hcount n (List.mem_cons_self n rest)
    simp only [hzero]
    rw [if_neg (by omega)]
    congr 1
    refine ih (seen ++ [n]) (List.Nodup.of_cons hnd) ?_
    intro a ha
    rw [List.count_append]
    have h1 : seen.count a = 0 := hcount a (List.mem_cons_of_mem n ha)
    have h2 : a ≠ n := by
      intro hcontra
      subst hcontra
      exact (List.nodup_cons.mp hnd).1 ha
    simp [h1, List.count_singleton, h2]

/-- `dedupGo` preserves length. -/
theorem dedupGo_length :
    ∀ (l : List String) (seen : List String), (dedupGo seen l).length = l.length := by
  intro l
  induction l with
  | nil => intro seen; rfl
  | cons n rest ih =>
    intro seen
    unfold dedupGo
    simp only [List.length_cons]
    simp [ih]

/-- `headerBase` always has exactly `total` entries. -/
theorem headerBase_length (raw : List String) (total : Nat) :
    (headerBase raw total).length = total := by
  simp [headerBase]

/-- `normalize_csv_headers` always has exactly `total` entries. -/
theorem normalize_csv_headers_length (raw : List String) (total : Nat) :
    (normalize_csv_headers raw total).length = total := by
  unfold normalize_csv_headers
  rw [dedupGo_length, headerBase_length]

/-- If the trimmed/synthesized names are distinct, deduplication changes
nothing and the result is distinct. -/
theorem normalize_csv_headers_of_nodup (raw : List String) (total : Nat)
    (h : (headerBase raw total).Nodup) :
    normalize_csv_headers raw total = headerBase raw total ∧
      (normalize_csv_headers raw total).Nodup := by
  have heq : normalize_csv_headers raw total = headerBase raw total :=
    dedupGo_eq_self (headerBase raw total) [] h (by simp)
  exact ⟨heq, heq ▸ h⟩

/-- The synthesized `col_1 .. col_N` headers are pairwise distinct for any
width the parser accepts (at most `MAX_CSV_COLUMNS`). -/
theorem colNames_nodup (n : Nat) (hn : n ≤ MAX_CSV_COLUMNS) :
    ((List.range n).map colName).Nodup := by
  have h50 : ((List.range MAX_CSV_COLUMNS).map colName).Nodup := by decide
  have hr : List.range n = (List.range MAX_CSV_COLUMNS).take n := by
    rw [List.take_range]
    congr 1
    omega
  rw [hr, List.map_take]
  exact h50.sublist (List.take_sublist n _)

/-- Shape of a sanitized cell: short cells keep their stripped content,
overlong cells are cut to `MAX_CELL_CHARS` characters plus an ellipsis. -/
theorem sanitize_csv_cell_shape (v : String) :
    (sanitize_csv_cell v).length ≤ MAX_CELL_CHARS ∨
      ((sanitize_csv_cell v).length = MAX_CELL_CHARS + 3 ∧
        ∃ w : String, sanitize_csv_cell v = w ++ "..." ∧
          w.length = MAX_CELL_CHARS) := by
  unfold sanitize_csv_cell
  by_cases h : MAX_CELL_CHARS < (pyStrip v).length
  · right
    rw [if_pos h]
    have htake : (String.mk ((pyStrip v).toList.take MAX_CELL_CHARS)).length
        = MAX_CELL_CHARS := by
      show ((pyStrip v).toList.take MAX_CELL_CHARS).length = MAX_CELL_CHARS
      rw [List.length_take]
      have : (pyStrip v).toList.length = (pyStrip v).length := rfl
      omega
    constructor
    · have : ∀ a b : String, (a ++ b).length = a.length + b.length := by
        intro a b
        show (a ++ b).toList.length = _
        rw [toList_append, List.length_append]
        rfl
      rw [this, htake]
      rfl
    · exact ⟨String.mk ((pyStrip v).toList.take MAX_CELL_CHARS), rfl, htake⟩
  · left
    rw [if_neg h]
    omega

/-- Inversion of `parse_csv_text` success into its three stages. -/
theorem parse_csv_text_ok_inv (text : String) (d : Char) (hh : Bool)
    (t : CsvParsed) (h : parse_csv_text text d hh = .ok t) :
    ∃ raw rows truncated, csvReadRows d text = .ok raw ∧
      collectPreviewRows 0 raw = .ok (rows, truncated) ∧
      previewAssemble d hh rows truncated = .ok t := by
  unfold parse_csv_text parse_csv_rows at h
  cases hread : csvReadRows d text with
  | error e =>
    rw [hread] at h
    exact absurd h (by simp [Except.mapError, bind, Except.bind])
  | ok raw =>
    rw [hread] at h
    simp only [Except.mapError, bind, Except.bind] at h
    cases hcol : collectPreviewRows 0 raw with
    | error e =>
      rw [hcol] at h
      exact absurd h (by simp)
    | ok p =>
      rw [hcol] at h
      exact ⟨raw, p.1, p.2, rfl, by rw [hcol], h⟩

/-- Inversion of `parse_csv_text_strict` success into its three stages. -/
theorem parse_csv_text_strict_ok_inv (text : String) (d : Char) (hh : Bool)
    (t : CsvStrictParsed) (h : parse_csv_text_strict text d hh = .ok t) :
    ∃ raw rows, csvReadRows d text = .ok raw ∧
      collectStrictRows 0 raw = .ok rows ∧
      strictAssemble d hh rows = .ok t := by
  unfold parse_csv_text_strict parse_csv_rows_strict at h
  cases hread : csvReadRows d text with
  | error e =>
    rw [hread] at h
    exact absurd h (by simp [Except.mapError, bind, Except.bind])
  | ok raw =>
    rw [hread] at h
    simp only [Except.mapError, bind, Except.bind] at h
    cases hcol : collectStrictRows 0 raw with
    | error e =>
      rw [hcol] at h
      exact absurd h (by simp)
    | ok rows =>
      rw [hcol] at h
      exact ⟨raw, rows, rfl, hcol, h⟩

/-- Inversion of the preview normalization tail. -/
theorem previewAssemble_ok_inv (d : Char) (hh : Bool)
    (rows : List (List String)) (trunc : Bool) (t : CsvParsed)
    (h : previewAssemble d hh rows trunc = .ok t) :
    rows ≠ [] ∧
    (if hh then max (rows.headD []).length (maxRowLen rows.tail)
     else maxRowLen rows) ≠ 0 ∧
    ¬ (MAX_CSV_COLUMNS <
        (if hh then max (rows.headD []).length (maxRowLen rows.tail)
         else maxRowLen rows)) ∧
    t = ⟨(if hh then
            normalize_csv_headers (rows.headD [])
              (max (rows.headD []).length (maxRowLen rows.tail))
          else (List.range (maxRowLen rows)).map colName),
         (if hh then rows.tail else rows).map (fun r =>
           pyDictOfPairs
             ((if hh then
                 normalize_csv_headers (rows.headD [])
                   (max (rows.headD []).length (maxRowLen rows.tail))
               else (List.range (maxRowLen rows)).map colName).zip
               (padTruncate (r.map sanitize_csv_cell)
                 (if hh then
                     normalize_csv_headers (rows.headD [])
                       (max (rows.headD []).length (maxRowLen rows.tail))
                   else (List.range (maxRowLen rows)).map colName).length))),
         trunc, d, (if hh then rows.tail else rows).length⟩ := by
  unfold previewAssemble at h
  by_cases h0 : rows = []
  · rw [if_pos h0] at h
    exact absurd h (by simp [throw, throwThe, MonadExceptOf.throw])
  · rw [if_neg h0] at h
    simp only at h
    cases hh with
    | true =>
      simp only [if_true, ite_true] at h ⊢
      by_cases hmc : max (rows.headD []).length (maxRowLen rows.tail) = 0
      · rw [if_pos hmc] at h
        exact absurd h (by simp [throw, throwThe, MonadExceptOf.throw])
      · rw [if_neg hmc] at h
        by_cases hover : MAX_CSV_COLUMNS <
            max (rows.headD []).length (maxRowLen rows.tail)
        · rw [if_pos hover] at h
          exact absurd h (by simp [throw, throwThe, MonadExceptOf.throw])
        · rw [if_neg hover] at h
          simp only [pure, Except.pure, Except.ok.injEq] at h
          exact ⟨h0, hmc, hover, h.symm⟩
    | false =>
      simp only [if_neg (show ¬ ((false : Bool) = true) by simp)] at h ⊢
      by_cases hmc : maxRowLen rows = 0
      · rw [if_pos hmc] at h
        exact absurd h (by simp [throw, throwThe, MonadExceptOf.throw])
      · rw [if_neg hmc] at h
        by_cases hover : MAX_CSV_COLUMNS < maxRowLen rows
        · rw [if_pos hover] at h
          exact absurd h (by simp [throw, throwThe, MonadExceptOf.throw])
        · rw [if_neg hover] at h
          simp only [pure, Except.pure, Except.ok.injEq] at h
          exact ⟨h0, hmc, hover, h.symm⟩

/-- Inversion of the strict normalization tail. -/
theorem strictAssemble_ok_inv (d : Char) (hh : Bool)
    (rows : List (List String)) (t : CsvStrictParsed)
    (h : strictAssemble d hh rows = .ok t) :
    rows ≠ [] ∧
    (if hh then max (rows.headD []).length (maxRowLen rows.tail)
     else maxRowLen rows) ≠ 0 ∧
    ¬ (MAX_CSV_COLUMNS <
        (if hh then max (rows.headD []).length (maxRowLen rows.tail)
         else maxRowLen rows)) ∧
    ((if hh then rows.tail else rows).map (fun r =>
        padTruncate r
          (if hh then
              normalize_csv_headers (rows.headD [])
                (max (rows.headD []).length (maxRowLen rows.tail))
            else (List.range (maxRowLen rows)).map colName).length)).any
      (fun r => r.any (fun cell => MAX_CELL_CHARS < cell.length)) = false ∧
    t = ⟨(if hh then
            normalize_csv_headers (rows.headD [])
              (max (rows.headD []).length (maxRowLen rows.tail))
          else (List.range (maxRowLen rows)).map colName),
         ((if hh then rows.tail else rows).map (fun r =>
            padTruncate r
              (if hh then
                  normalize_csv_headers (rows.headD [])
                    (max (rows.headD []).length (maxRowLen rows.tail))
                else (List.range (maxRowLen rows)).map colName).length)).map
           (fun r =>
             pyDictOfPairs
               ((if hh then
                   normalize_csv_headers (rows.headD [])
                     (max (rows.headD []).length (maxRowLen rows.tail))
                 else (List.range (maxRowLen rows)).map colName).zip r)),
         d⟩ := by
  unfold strictAssemble at h
  by_cases h0 : rows = []
  · rw [if_pos h0] at h
    exact absurd h (by simp [throw, throwThe, MonadExceptOf.throw])
  · rw [if_neg h0] at h
    simp only at h
    cases hh with
    | true =>
      simp only [if_true, ite_true] at h ⊢
      by_cases hmc : max (rows.headD []).length (maxRowLen rows.tail) = 0
      · rw [if_pos hmc] at h
        exact absurd h (by simp [throw, throwThe, MonadExceptOf.throw])
      · rw [if_neg hmc] at h
        by_cases hover : MAX_CSV_COLUMNS <
            max (rows.headD []).length (maxRowLen rows.tail)
        · rw [if_pos hover] at h
          exact absurd h (by simp [throw, throwThe, MonadExceptOf.throw])
        · rw [if_neg hover] at h
          by_cases hcell : (rows.tail.map (fun r =>
              padTruncate r (normalize_csv_headers (rows.headD [])
                (max (rows.headD []).length (maxRowLen rows.tail))).length)).any
                (fun r => r.any (fun cell => MAX_CELL_CHARS < cell.length)) = true
          · rw [if_pos hcell] at h
            exact absurd h (by simp [throw, throwThe, MonadExceptOf.throw])
          · rw [if_neg hcell] at h
            simp only [pure, Except.pure, Except.ok.injEq] at h
            exact ⟨h0, hmc, hover, by simpa using hcell, h.symm⟩
    | false =>
      simp only [if_neg (show ¬ ((false : Bool) = true) by simp)] at h ⊢
      by_cases hmc : maxRowLen rows = 0
      · rw [if_pos hmc] at h
        exact absurd h (by simp [throw, throwThe, MonadExceptOf.throw])
      · rw [if_neg hmc] at h
        by_cases hover : MAX_CSV_COLUMNS < maxRowLen rows
        · rw [if_pos hover] at h
          exact absurd h (by simp [throw, throwThe, MonadExceptOf.throw])
        · rw [if_neg hover] at h
          by_cases hcell : (rows.map (fun r =>
              padTruncate r ((List.range (maxRowLen rows)).map colName).length)).any
                (fun r => r.any (fun cell => MAX_CELL_CHARS < cell.length)) = true
          · rw [if_pos hcell] at h
            exact absurd h (by simp [throw, throwThe, MonadExceptOf.throw])
          · rw [if_neg hcell] at h
            simp only [pure, Except.pure, Except.ok.injEq] at h
            exact ⟨h0, hmc, hover, by simpa using hcell, h.symm⟩

/-- Key and size invariants of rows assembled as
`dict(zip(headers, cells))` from cell lists of header width. -/
theorem dict_rows_invariants (headers : List String)
    (cellLists : List (List String))
    (hlen : ∀ c ∈ cellLists, c.length = headers.length) :
    (headers.Nodup →
      ∀ r ∈ cellLists.map (fun c => pyDictOfPairs (headers.zip c)),
        dictKeys r = headers) ∧
    (∀ r ∈ cellLists.map (fun c => pyDictOfPairs (headers.zip c)),
      r.length ≤ headers.length) := by
  constructor
  · intro hnd r hr
    obtain ⟨c, hc, rfl⟩ := List.mem_map.mp hr
    have hkeys : (headers.zip c).map Prod.fst = headers :=
      List.map_fst_zip headers c (le_of_eq (hlen c hc).symm)
    have hznd : ((headers.zip c).map Prod.fst).Nodup := by
      rw [hkeys]; exact hnd
    rw [pyDictOfPairs_eq_self _ hznd]
    exact hkeys
  · intro r hr
    obtain ⟨c, hc, rfl⟩ := List.mem_map.mp hr
    refine le_trans (pyDictOfPairs_length_le _) ?_
    rw [List.length_zip, hlen c hc]
    omega

set_option maxRecDepth 10000 in
/-- C5 counterexample: parsing `"x,x,x_2\n1,2,3"` with a header row
succeeds, but the returned headers `x, x_2, x_2` are NOT pairwise
distinct (the dedup suffix for the second `x` collides with the genuine
third header `x_2`), and the single returned row mapping has 2 entries,
not `len(headers) = 3`. -/
theorem C5_counterexample :
    parse_csv_text "x,x,x_2\n1,2,3" ',' true
      = .ok ⟨["x", "x_2", "x_2"], [[("x", "1"), ("x_2", "3")]], false, ',', 1⟩ ∧
    ¬ (["x", "x_2", "x_2"] : List String).Nodup ∧
    ([(("x" : String), ("1" : String)), ("x_2", "3")].length = 2 ∧
      (["x", "x_2", "x_2"] : List String).length = 3) := by
  refine ⟨rfl, by decide, by decide⟩

/-- C5 (amended): for every parse that succeeds (either mode), the headers
are non-empty; when `has_header` is false the synthesized `col_N` headers
are always pairwise distinct; whenever the returned headers are pairwise
distinct, every returned row mapping has exactly the headers as its keys in
header order (short rows right-padded, long rows right-truncated to header
width before keying); every row mapping has at most `len(headers)` entries;
and header deduplication (numeric suffixes from 2) leaves any
already-distinct trimmed/synthesized header list unchanged and distinct —
but a suffixed name may collide with another header, so distinctness after
deduplication is NOT unconditional (see the counterexample). -/
theorem C5_parse_invariants_amended :
    (∀ (text : String) (d : Char) (hh : Bool) (t : CsvParsed),
      parse_csv_text text d hh = .ok t →
        t.headers ≠ [] ∧
        (hh = false → t.headers.Nodup) ∧
        (t.headers.Nodup → ∀ r ∈ t.rows, dictKeys r = t.headers) ∧
        (∀ r ∈ t.rows, r.length ≤ t.headers.length)) ∧
    (∀ (text : String) (d : Char) (hh : Bool) (t : CsvStrictParsed),
      parse_csv_text_strict text d hh = .ok t →
        t.headers ≠ [] ∧
        (hh = false → t.headers.Nodup) ∧
        (t.headers.Nodup → ∀ r ∈ t.rows, dictKeys r = t.headers) ∧
        (∀ r ∈ t.rows, r.length ≤ t.headers.length)) ∧
    (∀ (raw : List String) (total : Nat),
      (headerBase raw total).Nodup →
        normalize_csv_headers raw total = headerBase raw total ∧
          (normalize_csv_headers raw total).Nodup) := by
  refine ⟨?_, ?_, fun raw total h => normalize_csv_headers_of_nodup raw total h⟩
  · intro text d hh t hok
    obtain ⟨raw, rows, trunc, _, _, hasm⟩ := parse_csv_text_ok_inv _ _ _ _ hok
    obtain ⟨h0, hmc, hover, ht⟩ := previewAssemble_ok_inv _ _ _ _ _ hasm
    subst ht
    cases hh with
    | true =>
      simp only [if_true, ite_true] at hmc hover ⊢
      set mc := max (rows.headD []).length (maxRowLen rows.tail) with hmcdef
      have hhl : (normalize_csv_headers (rows.headD []) mc).length = mc :=
        normalize_csv_headers_length _ _
      have hcells : ∀ c ∈ rows.tail.map (fun r =>
          padTruncate (r.map sanitize_csv_cell)
            (normalize_csv_headers (rows.headD []) mc).length),
          c.length = (normalize_csv_headers (rows.headD []) mc).length := by
        intro c hc
        obtain ⟨r, _, rfl⟩ := List.mem_map.mp hc
        exact padTruncate_length _ _
      have hinv := dict_rows_invariants
        (normalize_csv_headers (rows.headD []) mc)
        (rows.tail.map (fun r =>
          padTruncate (r.map sanitize_csv_cell)
            (normalize_csv_headers (rows.headD []) mc).length)) hcells
      rw [List.map_map] at hinv
      refine ⟨?_, ?_, ?_, ?_⟩
      · intro hcontra
        have := congrArg List.length hcontra
        rw [hhl] at this
        simp at this
        omega
      · intro hcontra
        simp at hcontra
      · exact fun hnd r hr => hinv.1 hnd r hr
      · exact fun r hr => hinv.2 r hr
    | false =>
      simp only [if_neg (show ¬ ((false : Bool) = true) by simp)] at hmc hover ⊢
      have hhl : ((List.range (maxRowLen rows)).map colName).length
          = maxRowLen rows := by simp
      have hcells : ∀ c ∈ rows.map (fun r =>
          padTruncate (r.map sanitize_csv_cell)
            ((List.range (maxRowLen rows)).map colName).length),
          c.length = ((List.range (maxRowLen rows)).map colName).length := by
        intro c hc
        obtain ⟨r, _, rfl⟩ := List.mem_map.mp hc
        exact padTruncate_length _ _
      have hinv := dict_rows_invariants
        ((List.range (maxRowLen rows)).map colName)
        (rows.map (fun r =>
          padTruncate (r.map sanitize_csv_cell)
            ((List.range (maxRowLen rows)).map colName).length)) hcells
      rw [List.map_map] at hinv
      refine ⟨?_, ?_, ?_, ?_⟩
      · intro hcontra
        have := congrArg List.length hcontra
        rw [hhl] at this
        simp at this
        omega
      · intro _
        exact colNames_nodup (maxRowLen rows) (by omega)
      · exact fun hnd r hr => hinv.1 hnd r hr
      · exact fun r hr => hinv.2 r hr
  · intro text d hh t hok
    obtain ⟨raw, rows, _, _, hasm⟩ := parse_csv_text_strict_ok_inv _ _ _ _ hok
    obtain ⟨h0, hmc, hover, _, ht⟩ := strictAssemble_ok_inv _ _ _ _ hasm
    subst ht
    cases hh with
    | true =>
      simp only [if_true, ite_true] at hmc hover ⊢
      set mc := max (rows.headD []).length (maxRowLen rows.tail) with hmcdef
      have hhl : (normalize_csv_headers (rows.headD []) mc).length = mc :=
        normalize_csv_headers_length _ _
      have hcells : ∀ c ∈ rows.tail.map (fun r =>
          padTruncate r (normalize_csv_headers (rows.headD []) mc).length),
          c.length = (normalize_csv_headers (rows.headD []) mc).length := by
        intro c hc
        obtain ⟨r, _, rfl⟩ := List.mem_map.mp hc
        exact padTruncate_length _ _
      have hinv := dict_rows_invariants
        (normalize_csv_headers (rows.headD []) mc)
        (rows.tail.map (fun r =>
          padTruncate r (normalize_csv_headers (rows.headD []) mc).length)) hcells
      refine ⟨?_, ?_, ?_, ?_⟩
      · intro hcontra
        have := congrArg List.length hcontra
        rw [hhl] at this
        simp at this
        omega
      · intro hcontra
        simp at hcontra
      · exact fun hnd r hr => hinv.1 hnd r hr
      · exact fun r hr => hinv.2 r hr
    | false =>
      simp only [if_neg (show ¬ ((false : Bool) = true) by simp)] at hmc hover ⊢
      have hcells : ∀ c ∈ rows.map (fun r =>
          padTruncate r ((List.range (maxRowLen rows)).map colName).length),
          c.length = ((List.range (maxRowLen rows)).map colName).length := by
        intro c hc
        obtain ⟨r, _, rfl⟩ := List.mem_map.mp hc
        exact padTruncate_length _ _
      have hinv := dict_rows_invariants
        ((List.range (maxRowLen rows)).map colName)
        (rows.map (fun r =>
          padTruncate r ((List.range (maxRowLen rows)).map colName).length)) hcells
      refine ⟨?_, ?_, ?_, ?_⟩
      · intro hcontra
        have := congrArg List.length hcontra
        simp at this
        omega
      · intro _
        exact colNames_nodup (maxRowLen rows) (by omega)
      · exact fun hnd r hr => hinv.1 hnd r hr
      · exact fun r hr => hinv.2 r hr

/-- Witness for C5: the amended invariants applied to the spec's scenario
CSV `"a,b\n1,2\n3,4"`. -/
theorem C5_parse_invariants_amended_witness :
    dictKeys [("a", "1"), ("b", "2")] = ["a", "b"] := by
  have h := (C5_parse_invariants_amended.1 "a,b\n1,2\n3,4" ',' true
    ⟨["a", "b"], [[("a", "1"), ("b", "2")], [("a", "3"), ("b", "4")]],
      false, ',', 2⟩ rfl)
  exact h.2.2.1 (by decide) [("a", "1"), ("b", "2")] (by decide)

/-- Every row's width is bounded by `maxRowLen`. -/
theorem maxRowLen_ge (rows : List (List String)) :
    ∀ r ∈ rows, r.length ≤ maxRowLen rows := by
  induction rows with
  | nil => intro r hr; simp at hr
  | cons x xs ih =>
    intro r hr
    rcases List.mem_cons.mp hr with h | h
    · subst h
      simp only [maxRowLen, List.foldr_cons]
      omega
    · have := ih r h
      simp only [maxRowLen, List.foldr_cons]
      simp only [maxRowLen] at this
      omega

/-- `maxRowLen` is bounded by any common width bound. -/
theorem maxRowLen_le (rows : List (List String)) (k : Nat)
    (h : ∀ r ∈ rows, r.length ≤ k) : maxRowLen rows ≤ k := by
  induction rows with
  | nil => simp [maxRowLen]
  | cons x xs ih =>
    simp only [maxRowLen, List.foldr_cons]
    have h1 := h x (List.mem_cons_self x xs)
    have h2 : maxRowLen xs ≤ k := ih (fun r hr => h r (List.mem_cons_of_mem x hr))
    simp only [maxRowLen] at h2
    omega

/-- The preview loop keeps all non-blank rows when within limits. -/
theorem collectPreview_ok_all :
    ∀ (raw : List (List String)) (total : Nat),
      total + (raw.filter rowNonBlank).length ≤ MAX_CSV_ROWS →
      (∀ r ∈ raw.filter rowNonBlank, r.length ≤ MAX_CSV_COLUMNS) →
      collectPreviewRows total raw = .ok (raw.filter rowNonBlank, false) := by
  intro raw
  induction raw with
  | nil => intro total _ _; rfl
  | cons r rest ih =>
    intro total hcap hcols
    by_cases hb : rowNonBlank r = true
    · rw [List.filter_cons_of_pos hb] at hcap hcols ⊢
      unfold collectPreviewRows
      rw [if_neg (not_not_intro hb)]
      rw [if_neg (by
        have := hcols r (List.mem_cons_self _ _)
        omega)]
      rw [if_neg (by
        simp only [List.length_cons] at hcap
        omega)]
      rw [ih (total + 1) (by simp only [List.length_cons] at hcap; omega)
        (fun x hx => hcols x (List.mem_cons_of_mem r hx))]
      rfl
    · rw [List.filter_cons_of_neg (by simpa using hb)] at hcap hcols ⊢
      unfold collectPreviewRows
      rw [if_pos hb]
      exact ih total hcap hcols

/-- The preview loop rejects a wide row reached within the row budget. -/
theorem collectPreview_error_cols :
    ∀ (raw : List (List String)) (total : Nat),
      total + (raw.filter rowNonBlank).length ≤ MAX_CSV_ROWS →
      (∃ r ∈ raw.filter rowNonBlank, MAX_CSV_COLUMNS < r.length) →
      collectPreviewRows total raw = .error .tooManyColumns := by
  intro raw
  induction raw with
  | nil => rintro total _ ⟨r, hr, _⟩; simp at hr
  | cons r rest ih =>
    rintro total hcap ⟨w, hw, hwlen⟩
    by_cases hb : rowNonBlank r = true
    · rw [List.filter_cons_of_pos hb] at hcap hw
      unfold collectPreviewRows
      rw [if_neg (not_not_intro hb)]
      by_cases hwide : MAX_CSV_COLUMNS < r.length
      · rw [if_pos hwide]
      · rw [if_neg hwide]
        rw [if_neg (by
          simp only [List.length_cons] at hcap
          omega)]
        have hwrest : w ∈ rest.filter rowNonBlank := by
          rcases List.mem_cons.mp hw with h | h
          · subst h; omega
          · exact h
        rw [ih (total + 1) (by simp only [List.length_cons] at hcap; omega)
          ⟨w, hwrest, hwlen⟩]
        rfl
    · rw [List.filter_cons_of_neg (by simpa using hb)] at hcap hw
      unfold collectPreviewRows
      rw [if_pos hb]
      exact ih total hcap ⟨w, hw, hwlen⟩

/-- The preview loop truncates at the row budget when rows overflow. -/
theorem collectPreview_truncates :
    ∀ (raw : List (List String)) (total : Nat),
      total ≤ MAX_CSV_ROWS →
      MAX_CSV_ROWS < total + (raw.filter rowNonBlank).length →
      (∀ r ∈ raw.filter rowNonBlank, r.length ≤ MAX_CSV_COLUMNS) →
      collectPreviewRows total raw
        = .ok ((raw.filter rowNonBlank).take (MAX_CSV_ROWS - total), true) := by
  intro raw
  induction raw with
  | nil =>
    intro total htot hover _
    simp only [List.filter_nil, List.length_nil] at hover
    omega
  | cons r rest ih =>
    intro total htot hover hcols
    by_cases hb : rowNonBlank r = true
    · rw [List.filter_cons_of_pos hb] at hover hcols ⊢
      unfold collectPreviewRows
      rw [if_neg (not_not_intro hb)]
      rw [if_neg (by
        have := hcols r (List.mem_cons_self _ _)
        omega)]
      by_cases hfull : MAX_CSV_ROWS < total + 1
      · rw [if_pos hfull]
        have : MAX_CSV_ROWS - total = 0 := by omega
        rw [this, List.take_zero]
      · rw [if_neg hfull]
        rw [ih (total + 1) (by omega)
          (by simp only [List.length_cons] at hover; omega)
          (fun x hx => hcols x (List.mem_cons_of_mem r hx))]
        have harith : MAX_CSV_ROWS - total = (MAX_CSV_ROWS - (total + 1)) + 1 := by
          omega
        rw [harith, List.take_succ_cons]
        rfl
    · rw [List.filter_cons_of_neg (by simpa using hb)] at hover hcols ⊢
      unfold collectPreviewRows
      rw [if_pos hb]
      exact ih total htot hover hcols

/-- The strict loop keeps all non-empty rows when within limits. -/
theorem collectStrict_ok_all :
    ∀ (raw : List (List String)) (count : Nat),
      count + (raw.filter rowNonEmpty).length ≤ MAX_CSV_ROWS →
      (∀ r ∈ raw.filter rowNonEmpty, r.length ≤ MAX_CSV_COLUMNS) →
      collectStrictRows count raw = .ok (raw.filter rowNonEmpty) := by
  intro raw
  induction raw with
  | nil => intro count _ _; rfl
  | cons r rest ih =>
    intro count hcap hcols
    by_cases hb : rowNonEmpty r = true
    · rw [List.filter_cons_of_pos hb] at hcap hcols ⊢
      unfold collectStrictRows
      rw [if_neg (not_not_intro hb)]
      rw [if_neg (by
        have := hcols r (List.mem_cons_self _ _)
        omega)]
      rw [if_neg (by
        simp only [List.length_cons] at hcap
        omega)]
      rw [ih (count + 1) (by simp only [List.length_cons] at hcap; omega)
        (fun x hx => hcols x (List.mem_cons_of_mem r hx))]
      rfl
    · rw [List.filter_cons_of_neg (by simpa using hb)] at hcap hcols ⊢
      unfold collectStrictRows
      rw [if_pos hb]
      exact ih count hcap hcols

/-- The strict loop rejects a wide row reached within the row budget. -/
theorem collectStrict_error_cols :
    ∀ (raw : List (List String)) (count : Nat),
      count + (raw.filter rowNonEmpty).length ≤ MAX_CSV_ROWS →
      (∃ r ∈ raw.filter rowNonEmpty, MAX_CSV_COLUMNS < r.length) →
      collectStrictRows count raw = .error .tooManyColumns := by
  intro raw
  induction raw with
  | nil => rintro count _ ⟨r, hr, _⟩; simp at hr
  | cons r rest ih =>
    rintro count hcap ⟨w, hw, hwlen⟩
    by_cases hb : rowNonEmpty r = true
    · rw [List.filter_cons_of_pos hb] at hcap hw
      unfold collectStrictRows
      rw [if_neg (not_not_intro hb)]
      by_cases hwide : MAX_CSV_COLUMNS < r.length
      · rw [if_pos hwide]
      · rw [if_neg hwide]
        rw [if_neg (by
          simp only [List.length_cons] at hcap
          omega)]
        have hwrest : w ∈ rest.filter rowNonEmpty := by
          rcases List.mem_cons.mp hw with h | h
          · subst h; omega
          · exact h
        rw [ih (count + 1) (by simp only [List.length_cons] at hcap; omega)
          ⟨w, hwrest, hwlen⟩]
        rfl
    · rw [List.filter_cons_of_neg (by simpa using hb)] at hcap hw
      unfold collectStrictRows
      rw [if_pos hb]
      exact ih count hcap ⟨w, hw, hwlen⟩

/-- The strict loop rejects when non-empty rows overflow the row budget
(the wide-row check happens first for each examined row). -/
theorem collectStrict_error_rows :
    ∀ (raw : List (List String)) (count : Nat),
      count ≤ MAX_CSV_ROWS →
      MAX_CSV_ROWS < count + (raw.filter rowNonEmpty).length →
      (∀ r ∈ (raw.filter rowNonEmpty).take (MAX_CSV_ROWS + 1 - count),
        r.length ≤ MAX_CSV_COLUMNS) →
      collectStrictRows count raw = .error .tooManyRows := by
  intro raw
  induction raw with
  | nil =>
    intro count hcnt hover _
    simp only [List.filter_nil, List.length_nil] at hover
    omega
  | cons r rest ih =>
    intro count hcnt hover hcols
    by_cases hb : rowNonEmpty r = true
    · rw [List.filter_cons_of_pos hb] at hover hcols
      unfold collectStrictRows
      rw [if_neg (not_not_intro hb)]
      have hrtake : r ∈ (r :: rest.filter rowNonEmpty).take
          (MAX_CSV_ROWS + 1 - count) := by
        have : MAX_CSV_ROWS + 1 - count = (MAX_CSV_ROWS - count) + 1 := by omega
        rw [this, List.take_succ_cons]
        exact List.mem_cons_self _ _
      rw [if_neg (by
        have := hcols r hrtake
        omega)]
      by_cases hfull : MAX_CSV_ROWS < count + 1
      · rw [if_pos hfull]
      · rw [if_neg hfull]
        rw [ih (count + 1) (by omega)
          (by simp only [List.length_cons] at hover; omega)
          (by
            intro x hx
            apply hcols
            have harith : MAX_CSV_ROWS + 1 - count
                = (MAX_CSV_ROWS + 1 - (count + 1)) + 1 := by omega
            rw [harith, List.take_succ_cons]
            exact List.mem_cons_of_mem r hx)]
        rfl
    · rw [List.filter_cons_of_neg (by simpa using hb)] at hover hcols
      unfold collectStrictRows
      rw [if_pos hb]
      exact ih count hcnt hover hcols

/-- Membership in `dictSet` output comes from the original dict or is the
new pair. -/
theorem mem_dictSet (k v : String) :
    ∀ (d : PyDict) (p : String × String),
      p ∈ dictSet d k v → p ∈ d ∨ p = (k, v) := by
  intro d
  induction d with
  | nil => intro p hp; simp [dictSet] at hp; right; exact hp
  | cons q rest ih =>
    intro p hp
    obtain ⟨k', v'⟩ := q
    unfold dictSet at hp
    by_cases hk : k' = k
    · rw [if_pos (by simp [hk])] at hp
      rcases List.mem_cons.mp hp with h | h
      · right; exact h
      · left; exact List.mem_cons_of_mem _ h
    · rw [if_neg (by simp [hk])] at hp
      rcases List.mem_cons.mp hp with h | h
      · left; rw [h]; exact List.mem_cons_self _ _
      · rcases ih p h with h1 | h1
        · left; exact List.mem_cons_of_mem _ h1
        · right; exact h1

/-- Every value stored by `pyDictOfPairs` is a value of some input pair. -/
theorem pyDictOfPairs_values (Pred : String → Prop) (l : List (String × String))
    (hl : ∀ p ∈ l, Pred p.2) : ∀ p ∈ pyDictOfPairs l, Pred p.2 := by
  suffices hgen : ∀ (l : List (String × String)) (acc : PyDict),
      (∀ p ∈ acc, Pred p.2) → (∀ p ∈ l, Pred p.2) →
      ∀ p ∈ l.foldl (fun d q => pyDictInsert d q.1 q.2) acc, Pred p.2 by
    exact hgen l [] (by simp) hl
  intro l
  induction l with
  | nil => intro acc hacc _ p hp; exact hacc p hp
  | cons q rest ih =>
    intro acc hacc hl p hp
    simp only [List.foldl_cons] at hp
    refine ih (pyDictInsert acc q.1 q.2) ?_
      (fun x hx => hl x (List.mem_cons_of_mem q hx)) p hp
    intro x hx
    unfold pyDictInsert at hx
    by_cases hc : dictContains acc q.1 = true
    · rw [if_pos hc] at hx
      rcases mem_dictSet q.1 q.2 acc x hx with h1 | h1
      · exact hacc x h1
      · rw [h1]
        exact hl q (List.mem_cons_self q rest)
    · rw [if_neg (by simp [hc])] at hx
      rcases List.mem_append.mp hx with h1 | h1
      · exact hacc x h1
      · rw [List.mem_singleton.mp h1]
        exact hl q (List.mem_cons_self q rest)

/-- Cells of a padded/truncated row are original cells or padding. -/
theorem mem_padTruncate (cells : List String) (n : Nat) (x : String)
    (hx : x ∈ padTruncate cells n) : x ∈ cells ∨ x = "" := by
  unfold padTruncate at hx
  have h1 := List.mem_of_mem_take hx
  rcases List.mem_append.mp h1 with h | h
  · left; exact h
  · right; exact List.eq_of_mem_replicate h

/-- Rows accepted by either collection loop are non-empty lists. -/
theorem rowNonBlank_ne_nil (r : List String) (h : rowNonBlank r = true) :
    r ≠ [] := by
  intro hcontra
  subst hcontra
  simp [rowNonBlank] at h

/-- The head of a non-empty list is a member. -/
theorem headD_mem {α : Type} (l : List α) (d : α) (h : l ≠ []) :
    l.headD d ∈ l := by
  cases l with
  | nil => exact absurd rfl h
  | cons x xs => simp

/-- The preview normalization tail succeeds on non-empty, non-degenerate
row lists, preserving the truncation flag. -/
theorem previewAssemble_ok_of (d : Char) (hh : Bool)
    (rows : List (List String)) (trunc : Bool)
    (h0 : rows ≠ []) (hne : ∀ r ∈ rows, r ≠ [])
    (hw : ∀ r ∈ rows, r.length ≤ MAX_CSV_COLUMNS) :
    ∃ t, previewAssemble d hh rows trunc = .ok t ∧ t.truncated = trunc := by
  have hhead : rows.headD [] ∈ rows := headD_mem rows [] h0
  have hheadlen : 1 ≤ (rows.headD []).length := by
    have := hne _ hhead
    cases hrh : rows.headD [] with
    | nil => exact absurd hrh this
    | cons a t => simp
  unfold previewAssemble
  rw [if_neg h0]
  simp only
  cases hh with
  | true =>
    simp only [if_true, ite_true]
    rw [if_neg (by
      have : 1 ≤ max (rows.headD []).length (maxRowLen rows.tail) := by
        have := le_max_left (rows.headD []).length (maxRowLen rows.tail)
        omega
      omega)]
    rw [if_neg (by
      have h1 : (rows.headD []).length ≤ MAX_CSV_COLUMNS := hw _ hhead
      have h2 : maxRowLen rows.tail ≤ MAX_CSV_COLUMNS :=
        maxRowLen_le _ _ (fun r hr => hw r (List.mem_of_mem_tail hr))
      omega)]
    exact ⟨_, rfl, rfl⟩
  | false =>
    simp only [if_neg (show ¬ ((false : Bool) = true) by simp)]
    rw [if_neg (by
      have := maxRowLen_ge rows _ hhead
      omega)]
    rw [if_neg (by
      have := maxRowLen_le rows _ hw
      omega)]
    exact ⟨_, rfl, rfl⟩

/-- Reduce `parse_csv_text` given the reader result. -/
theorem parse_csv_text_eq_rows (text : String) (d : Char) (hh : Bool)
    (raw : List (List String)) (hread : csvReadRows d text = .ok raw) :
    parse_csv_text text d hh = parse_csv_rows d hh raw := by
  unfold parse_csv_text
  rw [hread]
  rfl

/-- Reduce `parse_csv_text_strict` given the reader result. -/
theorem parse_csv_text_strict_eq_rows (text : String) (d : Char) (hh : Bool)
    (raw : List (List String)) (hread : csvReadRows d text = .ok raw) :
    parse_csv_text_strict text d hh = parse_csv_rows_strict d hh raw := by
  unfold parse_csv_text_strict
  rw [hread]
  rfl

/-- Reduce `parse_csv_rows` given the collector result. -/
theorem parse_csv_rows_eq_assemble (d : Char) (hh : Bool)
    (raw : List (List String)) (rows : List (List String)) (trunc : Bool)
    (hcol : collectPreviewRows 0 raw = .ok (rows, trunc)) :
    parse_csv_rows d hh raw = previewAssemble d hh rows trunc := by
  unfold parse_csv_rows
  rw [hcol]
  rfl

/-- `parse_csv_rows` propagates collector errors. -/
theorem parse_csv_rows_eq_error (d : Char) (hh : Bool)
    (raw : List (List String)) (e : CsvFail)
    (hcol : collectPreviewRows 0 raw = .error e) :
    parse_csv_rows d hh raw = .error e := by
  unfold parse_csv_rows
  rw [hcol]
  rfl

/-- Reduce `parse_csv_rows_strict` given the collector result. -/
theorem parse_csv_rows_strict_eq_assemble (d : Char) (hh : Bool)
    (raw : List (List String)) (rows : List (List String))
    (hcol : collectStrictRows 0 raw = .ok rows) :
    parse_csv_rows_strict d hh raw = strictAssemble d hh rows := by
  unfold parse_csv_rows_strict
  rw [hcol]
  rfl

/-- `parse_csv_rows_strict` propagates collector errors. -/
theorem parse_csv_rows_strict_eq_error (d : Char) (hh : Bool)
    (raw : List (List String)) (e : CsvFail)
    (hcol : collectStrictRows 0 raw = .error e) :
    parse_csv_rows_strict d hh raw = .error e := by
  unfold parse_csv_rows_strict
  rw [hcol]
  rfl

set_option maxHeartbeats 1000000 in
/-- C8 (amended): with the reader's records fixed, (1) preview parsing
fails with the malformed-input error when no NON-BLANK record exists, but
(2) strict parsing keys that check on non-EMPTY records instead — a
whitespace-only record is accepted by strict parsing (see the
counterexample); (3,4) a record wider than `MAX_CSV_COLUMNS` among the
examined records makes either mode fail with the column-limit error;
(5) beyond `MAX_CSV_ROWS` kept records preview parsing succeeds and marks
the result truncated while (6) strict parsing rejects with the row-limit
error; (7) strict parsing never returns a cell longer than
`MAX_CELL_CHARS`, rejecting instead, and (8) preview parsing returns only
cells that are at most `MAX_CELL_CHARS` long or exactly
`MAX_CELL_CHARS + 3` long ending in an ellipsis. -/
theorem C8_limits_amended :
    (∀ (text : String) (d : Char) (hh : Bool) (raw : List (List String)),
      csvReadRows d text = .ok raw →
      raw.filter rowNonBlank = [] →
      parse_csv_text text d hh = .error .noValidRows) ∧
    (∀ (text : String) (d : Char) (hh : Bool) (raw : List (List String)),
      csvReadRows d text = .ok raw →
      raw.filter rowNonEmpty = [] →
      parse_csv_text_strict text d hh = .error .noValidRows) ∧
    (∀ (text : String) (d : Char) (hh : Bool) (raw : List (List String)),
      csvReadRows d text = .ok raw →
      (raw.filter rowNonBlank).length ≤ MAX_CSV_ROWS →
      (∃ r ∈ raw.filter rowNonBlank, MAX_CSV_COLUMNS < r.length) →
      parse_csv_text text d hh = .error .tooManyColumns) ∧
    (∀ (text : String) (d : Char) (hh : Bool) (raw : List (List String)),
      csvReadRows d text = .ok raw →
      (raw.filter rowNonEmpty).length ≤ MAX_CSV_ROWS →
      (∃ r ∈ raw.filter rowNonEmpty, MAX_CSV_COLUMNS < r.length) →
      parse_csv_text_strict text d hh = .error .tooManyColumns) ∧
    (∀ (text : String) (d : Char) (hh : Bool) (raw : List (List String)),
      csvReadRows d text = .ok raw →
      MAX_CSV_ROWS < (raw.filter rowNonBlank).length →
      (∀ r ∈ raw.filter rowNonBlank, r.length ≤ MAX_CSV_COLUMNS) →
      ∃ t, parse_csv_text text d hh = .ok t ∧ t.truncated = true) ∧
    (∀ (text : String) (d : Char) (hh : Bool) (raw : List (List String)),
      csvReadRows d text = .ok raw →
      MAX_CSV_ROWS < (raw.filter rowNonEmpty).length →
      (∀ r ∈ (raw.filter rowNonEmpty).take (MAX_CSV_ROWS + 1),
        r.length ≤ MAX_CSV_COLUMNS) →
      parse_csv_text_strict text d hh = .error .tooManyRows) ∧
    (∀ (text : String) (d : Char) (hh : Bool) (t : CsvStrictParsed),
      parse_csv_text_strict text d hh = .ok t →
      ∀ r ∈ t.rows, ∀ p ∈ r, p.2.length ≤ MAX_CELL_CHARS) ∧
    (∀ (text : String) (d : Char) (hh : Bool) (t : CsvParsed),
      parse_csv_text text d hh = .ok t →
      ∀ r ∈ t.rows, ∀ p ∈ r,
        p.2.length ≤ MAX_CELL_CHARS ∨
          (p.2.length = MAX_CELL_CHARS + 3 ∧
            ∃ w : String, p.2 = w ++ "..." ∧ w.length = MAX_CELL_CHARS)) := by
  refine ⟨?_, ?_, ?_, ?_, ?_, ?_, ?_, ?_⟩
  · intro text d hh raw hread hfil
    rw [parse_csv_text_eq_rows _ _ _ _ hread,
      parse_csv_rows_eq_assemble d hh raw [] false (by
        have := collectPreview_ok_all raw 0
          (by rw [hfil]; simp)
          (by rw [hfil]; simp)
        rw [hfil] at this
        exact this)]
    rfl
  · intro text d hh raw hread hfil
    rw [parse_csv_text_strict_eq_rows _ _ _ _ hread,
      parse_csv_rows_strict_eq_assemble d hh raw [] (by
        have := collectStrict_ok_all raw 0
          (by rw [hfil]; simp)
          (by rw [hfil]; simp)
        rw [hfil] at this
        exact this)]
    rfl
  · intro text d hh raw hread hcap hwide
    rw [parse_csv_text_eq_rows _ _ _ _ hread]
    exact parse_csv_rows_eq_error d hh raw _
      (collectPreview_error_cols raw 0 (by omega) hwide)
  · intro text d hh raw hread hcap hwide
    rw [parse_csv_text_strict_eq_rows _ _ _ _ hread]
    exact parse_csv_rows_strict_eq_error d hh raw _
      (collectStrict_error_cols raw 0 (by omega) hwide)
  · intro text d hh raw hread hover hcols
    have hcol := collectPreview_truncates raw 0 (Nat.zero_le _)
      (by omega) hcols
    rw [Nat.sub_zero] at hcol
    have hkept : 0 < ((raw.filter rowNonBlank).take MAX_CSV_ROWS).length := by
      rw [List.length_take]
      have : 0 < MAX_CSV_ROWS := by
        show 0 < 1000
        omega
      omega
    obtain ⟨t, hasm, htr⟩ := previewAssemble_ok_of d hh
      ((raw.filter rowNonBlank).take MAX_CSV_ROWS) true
      (List.ne_nil_of_length_pos hkept)
      (by
        intro r hr
        exact rowNonBlank_ne_nil r
          (List.of_mem_filter (List.mem_of_mem_take hr)))
      (by
        intro r hr
        exact hcols r (List.mem_of_mem_take hr))
    refine ⟨t, ?_, htr⟩
    rw [parse_csv_text_eq_rows _ _ _ _ hread,
      parse_csv_rows_eq_assemble d hh raw _ true hcol]
    exact hasm
  · intro text d hh raw hread hover hcols
    rw [parse_csv_text_strict_eq_rows _ _ _ _ hread]
    refine parse_csv_rows_strict_eq_error d hh raw _
      (collectStrict_error_rows raw 0 (Nat.zero_le _) (by omega) ?_)
    simpa using hcols
  · intro text d hh t hok r hr p hp
    obtain ⟨raw, rows, _, _, hasm⟩ := parse_csv_text_strict_ok_inv _ _ _ _ hok
    obtain ⟨_, _, _, hany, ht⟩ := strictAssemble_ok_inv _ _ _ _ hasm
    subst ht
    simp only at hr
    obtain ⟨c, hc, rfl⟩ := List.mem_map.mp hr
    have hcok : ∀ cell ∈ c, cell.length ≤ MAX_CELL_CHARS := by
      have h1 := (List.any_eq_false.mp hany) c hc
      have h2 : (c.any fun cell => decide (MAX_CELL_CHARS < cell.length))
          = false := Bool.eq_false_iff.mpr h1
      intro cell hcell
      have h3 := (List.any_eq_false.mp h2) cell hcell
      simp only [decide_eq_true_eq] at h3
      omega
    refine pyDictOfPairs_values (fun v => v.length ≤ MAX_CELL_CHARS) _ ?_ p hp
    intro q hq
    exact hcok q.2 (List.of_mem_zip hq).2
  · intro text d hh t hok r hr p hp
    obtain ⟨raw, rows, trunc, _, _, hasm⟩ := parse_csv_text_ok_inv _ _ _ _ hok
    obtain ⟨_, _, _, ht⟩ := previewAssemble_ok_inv _ _ _ _ _ hasm
    subst ht
    simp only at hr
    obtain ⟨rr, hrr, rfl⟩ := List.mem_map.mp hr
    refine pyDictOfPairs_values
      (fun v => v.length ≤ MAX_CELL_CHARS ∨
        (v.length = MAX_CELL_CHARS + 3 ∧
          ∃ w : String, v = w ++ "..." ∧ w.length = MAX_CELL_CHARS)) _ ?_ p hp
    intro q hq
    have hq2 := (List.of_mem_zip hq).2
    rcases mem_padTruncate _ _ _ hq2 with hmem | hempty
    · obtain ⟨v, _, hv⟩ := List.mem_map.mp hmem
      rw [← hv]
      exact sanitize_csv_cell_shape v
    · left
      rw [hempty]
      simp

/-- C8 counterexample: the input `"   "` (one whitespace-only record) has
no non-blank rows — preview parsing duly fails with the malformed-input
error — but STRICT parsing succeeds on it, returning the whitespace cell
verbatim, because its skip test `any(cell for cell in row)` keeps
non-empty-but-blank cells. -/
theorem C8_counterexample :
    csvReadRows ',' "   " = .ok [["   "]] ∧
    ([["   "]] : List (List String)).filter rowNonBlank = [] ∧
    parse_csv_text "   " ',' false = .error .noValidRows ∧
    parse_csv_text_strict "   " ',' false
      = .ok ⟨["col_1"], [[("col_1", "   ")]], ','⟩ :=
  ⟨rfl, by decide, rfl, rfl⟩

/-- Witness for C8: the no-non-blank-rows conjunct applied to a concrete
whitespace-only input. -/
theorem C8_limits_amended_witness :
    parse_csv_text "  " ',' true = .error .noValidRows :=
  C8_limits_amended.1 "  " ',' true [["  "]] rfl (by decide)

/-- `getLastD` of an append with non-empty right part. -/
theorem getLastD_append_right (l1 l2 : List Char) (d : Char) (h : l2 ≠ []) :
    (l1 ++ l2).getLastD d = l2.getLastD d := by
  rw [List.getLastD_eq_getLast?, List.getLastD_eq_getLast?,
    List.getLast?_append_of_ne_nil l1 h]

/-- `getLastD` of a reversed list is the head. -/
theorem getLastD_reverse (l : List Char) (d : Char) :
    l.reverse.getLastD d = l.headD d := by
  cases l with
  | nil => rfl
  | cons x xs =>
    rw [List.reverse_cons, getLastD_append_right _ _ _ (by simp)]
    rfl

/-- `headD` of an append with non-empty left part. -/
theorem headD_append_left (l1 l2 : List Char) (d : Char) (h : l1 ≠ []) :
    (l1 ++ l2).headD d = l1.headD d := by
  cases l1 with
  | nil => exact absurd rfl h
  | cons x xs => rfl

/-- Strip-fixedness of non-empty lists with non-whitespace endpoints. -/
theorem pyStripList_eq_self (l : List Char) (h0 : l ≠ [])
    (hfirst : isPySpace (l.headD ' ') = false)
    (hlast : isPySpace (l.getLastD ' ') = false) :
    pyStripList l = l := by
  unfold pyStripList
  obtain ⟨a, t, rfl⟩ := List.exists_cons_of_ne_nil h0
  rw [dropWhile_eq_self_of_head _ _ _ (by simpa using hfirst)]
  rcases List.eq_nil_or_concat (a :: t) with hnil | ⟨l', b, heq⟩
  · simp at hnil
  · rw [List.concat_eq_append] at heq
    have hb : isPySpace b = false := by
      have : (a :: t).getLastD ' ' = b := by
        rw [heq, List.getLastD_concat]
      rw [this] at hlast
      exact hlast
    rw [heq, List.reverse_concat, dropWhile_eq_self_of_head _ _ _ hb,
      ← List.reverse_concat, List.reverse_reverse]

/-- The strip of any list is empty or has non-whitespace endpoints. -/
theorem pyStripList_shape (l : List Char) :
    pyStripList l = [] ∨
      (pyStripList l ≠ [] ∧
        isPySpace ((pyStripList l).headD ' ') = false ∧
        isPySpace ((pyStripList l).getLastD ' ') = false) := by
  by_cases hB : (l.dropWhile isPySpace).reverse.dropWhile isPySpace = []
  · left
    unfold pyStripList
    rw [hB]
    rfl
  · right
    obtain ⟨b, u, hbu⟩ := List.exists_cons_of_ne_nil hB
    have hres : pyStripList l = (b :: u).reverse := by
      unfold pyStripList
      rw [hbu]
    have hpb : isPySpace b = false :=
      dropWhile_head_false isPySpace (l.dropWhile isPySpace).reverse b u hbu
    have hlast : (pyStripList l).getLastD ' ' = b := by
      rw [hres, getLastD_reverse]
      rfl
    have hsuffix : b :: u <:+ (l.dropWhile isPySpace).reverse := by
      rw [← hbu]
      exact List.dropWhile_suffix isPySpace
    obtain ⟨pre, hpre⟩ := hsuffix
    have hA : l.dropWhile isPySpace = (b :: u).reverse ++ pre.reverse := by
      have h1 := congrArg List.reverse hpre
      rw [List.reverse_append, List.reverse_reverse] at h1
      exact h1.symm
    have hAne : l.dropWhile isPySpace ≠ [] := by
      rw [hA]
      simp
    obtain ⟨a, t, hat⟩ := List.exists_cons_of_ne_nil hAne
    have hpa : isPySpace a = false := dropWhile_head_false isPySpace l a t hat
    have hhead : (pyStripList l).headD ' ' = a := by
      rw [hres]
      have h1 : ((b :: u).reverse ++ pre.reverse).headD ' '
          = (b :: u).reverse.headD ' ' :=
        headD_append_left _ _ _ (by simp)
      have h2 : (l.dropWhile isPySpace).headD ' ' = a := by rw [hat]; rfl
      rw [hA] at h2
      rw [← h1, h2]
    refine ⟨by rw [hres]; simp, ?_, ?_⟩
    · rw [hhead]; exact hpa
    · rw [hlast]; exact hpb

/-- `pyStrip` is idempotent. -/
theorem pyStrip_idem (s : String) : pyStrip (pyStrip s) = pyStrip s := by
  show String.mk (pyStripList (String.mk (pyStripList s.toList)).toList)
      = String.mk (pyStripList s.toList)
  have htl : (String.mk (pyStripList s.toList)).toList = pyStripList s.toList := rfl
  rw [htl]
  rcases pyStripList_shape s.toList with h | ⟨hne, hh, hl⟩
  · rw [h]
    rfl
  · rw [pyStripList_eq_self _ hne hh hl]

/-- Strings equal to their own strip. -/
theorem pyStrip_fixed_iff_list (s : String) (h : pyStrip s = s) :
    pyStripList s.toList = s.toList := by
  have := congrArg String.toList h
  simpa using this

/-- String length is additive over append. -/
theorem string_length_append (a b : String) :
    (a ++ b).length = a.length + b.length := by
  show (a ++ b).toList.length = a.toList.length + b.toList.length
  rw [toList_append, List.length_append]

/-- `headD` of a 500-element take. -/
theorem headD_take (l : List Char) (n : Nat) (d : Char) (hn : 0 < n)
    (hl : l ≠ []) : (l.take n).headD d = l.headD d := by
  cases l with
  | nil => exact absurd rfl hl
  | cons x xs =>
    cases n with
    | zero => omega
    | succ m => rfl

/-- Sanitized cells are strip-fixed. -/
theorem sanitize_strip_fixed (v : String) :
    pyStrip (sanitize_csv_cell v) = sanitize_csv_cell v := by
  unfold sanitize_csv_cell
  by_cases h : MAX_CELL_CHARS < (pyStrip v).length
  · rw [if_pos h]
    have hstrip : (pyStrip v).toList = pyStripList v.toList := rfl
    have hne : (pyStrip v).toList ≠ [] := by
      intro hcontra
      have : (pyStrip v).length = 0 := by
        show (pyStrip v).toList.length = 0
        rw [hcontra]
        rfl
      omega
    have hshape := pyStripList_shape v.toList
    rw [← hstrip] at hshape
    rcases hshape with h1 | ⟨_, hh, _⟩
    · exact absurd h1 hne
    · show String.mk (pyStripList (String.mk ((pyStrip v).toList.take
          MAX_CELL_CHARS) ++ "...").toList) = _
      have htl : (String.mk ((pyStrip v).toList.take MAX_CELL_CHARS)
          ++ "...").toList
            = (pyStrip v).toList.take MAX_CELL_CHARS ++ ['.', '.', '.'] := by
        rw [toList_append]
        rfl
      rw [htl]
      have htake_ne : (pyStrip v).toList.take MAX_CELL_CHARS ≠ [] := by
        intro hcontra
        have hlen := congrArg List.length hcontra
        rw [List.length_take] at hlen
        simp only [List.length_nil] at hlen
        have h1 : (pyStrip v).toList.length = (pyStrip v).length := rfl
        have h2 : MAX_CELL_CHARS = 500 := rfl
        omega
      have hside1 : isPySpace (((pyStrip v).toList.take MAX_CELL_CHARS
          ++ ['.', '.', '.']).headD ' ') = false := by
        rw [headD_append_left _ _ _ htake_ne,
          headD_take _ _ _ (by decide) hne]
        exact hh
      have hside2 : isPySpace (((pyStrip v).toList.take MAX_CELL_CHARS
          ++ ['.', '.', '.']).getLastD ' ') = false := by
        rw [getLastD_append_right _ _ _ (by simp)]
        rfl
      rw [pyStripList_eq_self _ (by simp) hside1 hside2]
      rfl
  · rw [if_neg h]
    exact pyStrip_idem v

/-- The length of a sanitized cell in the truncated branch. -/
theorem sanitize_overlong_length (v : String)
    (h : MAX_CELL_CHARS < (pyStrip v).length) :
    (sanitize_csv_cell v).length = MAX_CELL_CHARS + 3 := by
  unfold sanitize_csv_cell
  rw [if_pos h, string_length_append]
  have : (String.mk ((pyStrip v).toList.take MAX_CELL_CHARS)).length
      = MAX_CELL_CHARS := by
    show ((pyStrip v).toList.take MAX_CELL_CHARS).length = MAX_CELL_CHARS
    rw [List.length_take]
    have : (pyStrip v).toList.length = (pyStrip v).length := rfl
    omega
  rw [this]
  rfl

/-- Unfolded form of `sanitize_csv_cell`. -/
theorem sanitize_def (x : String) :
    sanitize_csv_cell x
      = if MAX_CELL_CHARS < (pyStrip x).length then
          String.mk ((pyStrip x).toList.take MAX_CELL_CHARS) ++ "..."
        else pyStrip x := rfl

/-- Sanitizing is idempotent. -/
theorem sanitize_idem (v : String) :
    sanitize_csv_cell (sanitize_csv_cell v) = sanitize_csv_cell v := by
  have hfix := sanitize_strip_fixed v
  by_cases h : MAX_CELL_CHARS < (pyStrip v).length
  · have hlen := sanitize_overlong_length v h
    rw [sanitize_def (sanitize_csv_cell v), hfix, if_pos (by omega)]
    have hv : sanitize_csv_cell v
        = String.mk ((pyStrip v).toList.take MAX_CELL_CHARS) ++ "..." := by
      rw [sanitize_def, if_pos h]
    rw [hv]
    have htl : (String.mk ((pyStrip v).toList.take MAX_CELL_CHARS)
        ++ "...").toList
          = (pyStrip v).toList.take MAX_CELL_CHARS ++ ['.', '.', '.'] := by
      rw [toList_append]
      rfl
    rw [htl]
    have hlen500 : ((pyStrip v).toList.take MAX_CELL_CHARS).length
        = MAX_CELL_CHARS := by
      rw [List.length_take]
      have h1 : (pyStrip v).toList.length = (pyStrip v).length := rfl
      omega
    rw [List.take_left' hlen500]
  · have hval : sanitize_csv_cell v = pyStrip v := by
      rw [sanitize_def, if_neg h]
    rw [sanitize_def (sanitize_csv_cell v), hfix,
      if_neg (by rw [hval]; exact h)]

/-- A cell with non-blank content sanitizes to a non-empty cell. -/
theorem sanitize_ne_empty (v : String) (h : pyStrip v ≠ "") :
    sanitize_csv_cell v ≠ "" := by
  unfold sanitize_csv_cell
  by_cases hl : MAX_CELL_CHARS < (pyStrip v).length
  · rw [if_pos hl]
    intro hcontra
    have := congrArg String.length hcontra
    rw [string_length_append] at this
    have h3 : ("..." : String).length = 3 := rfl
    have h0 : ("" : String).length = 0 := rfl
    omega
  · rw [if_neg hl]
    exact h

/-- A string is empty exactly when its character list is. -/
theorem str_ne_empty_of_toList (s : String) (h : s.toList ≠ []) : s ≠ "" := by
  intro hcontra
  subst hcontra
  exact h rfl

/-- A non-empty string has a non-empty character list. -/
theorem toList_ne_nil_of_ne_empty (s : String) (h : s ≠ "") :
    s.toList ≠ [] := by
  intro hcontra
  apply h
  have : s = String.mk s.toList := rfl
  rw [this, hcontra]

/-- Bounded fact table: decimal representations of naturals below 52 are
non-empty and end in a non-whitespace character. -/
theorem natRepr_facts (k : Nat) (hk : k < 52) :
    (toString k).toList ≠ [] ∧
      isPySpace ((toString k).toList.getLastD ' ') = false := by
  have hall : (List.range 52).all (fun k =>
      (!(toString k).toList.isEmpty) &&
        !(isPySpace ((toString k).toList.getLastD ' '))) = true := by decide
  have hmem := (List.all_eq_true.mp hall) k (List.mem_range.mpr hk)
  simp only [Bool.and_eq_true, Bool.not_eq_true'] at hmem
  constructor
  · intro hcontra
    rw [hcontra] at hmem
    simp at hmem
  · exact hmem.2

/-- Endpoint characters of a strip-fixed non-empty string. -/
theorem strip_fixed_endpoints (s : String) (hfix : pyStrip s = s)
    (hne : s ≠ "") :
    isPySpace (s.toList.headD ' ') = false ∧
      isPySpace (s.toList.getLastD ' ') = false := by
  have hl := pyStrip_fixed_iff_list s hfix
  rcases pyStripList_shape s.toList with h | ⟨_, hh, hlast⟩
  · rw [hl] at h
    exact absurd h (toList_ne_nil_of_ne_empty s hne)
  · rw [hl] at hh hlast
    exact ⟨hh, hlast⟩

/-- Appending an underscore-and-number suffix preserves strip-fixedness
and non-emptiness. -/
theorem strip_fixed_append_suffix (n : String) (k : Nat)
    (hfix : pyStrip n = n) (hne : n ≠ "") (hk : k < 52) :
    pyStrip (n ++ "_" ++ toString k) = n ++ "_" ++ toString k ∧
      n ++ "_" ++ toString k ≠ "" := by
  obtain ⟨hdigne, hdiglast⟩ := natRepr_facts k hk
  obtain ⟨hh, _⟩ := strip_fixed_endpoints n hfix hne
  have hnl := toList_ne_nil_of_ne_empty n hne
  have htl : (n ++ "_" ++ toString k).toList
      = (n.toList ++ ['_']) ++ (toString k).toList := by
    rw [toList_append, toList_append]
    rfl
  have hfull_ne : (n ++ "_" ++ toString k).toList ≠ [] := by
    rw [htl]
    simp [hdigne]
  constructor
  · show String.mk (pyStripList (n ++ "_" ++ toString k).toList) = _
    rw [htl, pyStripList_eq_self _ (by simp [hdigne]) ?_ ?_]
    · rw [← htl]
      rfl
    · rw [headD_append_left _ _ _ (by simp [hnl]),
        headD_append_left _ _ _ hnl]
      exact hh
    · rw [getLastD_append_right _ _ _ hdigne]
      exact hdiglast
  · exact str_ne_empty_of_toList _ hfull_ne

/-- Bounded fact table: `col_N` names are strip-fixed and non-empty. -/
theorem colName_facts (i : Nat) (hi : i < MAX_CSV_COLUMNS) :
    pyStrip (colName i) = colName i ∧ colName i ≠ "" := by
  have hall : (List.range MAX_CSV_COLUMNS).all (fun i =>
      (pyStrip (colName i) == colName i) && (colName i != "")) = true := by
    decide
  have hmem := (List.all_eq_true.mp hall) i (List.mem_range.mpr hi)
  simp only [Bool.and_eq_true, beq_iff_eq, bne_iff_ne, ne_eq] at hmem
  exact ⟨hmem.1, hmem.2⟩

/-- Entries of `headerBase` are strip-fixed and non-empty. -/
theorem headerBase_facts (raw : List String) (total : Nat)
    (htot : total ≤ MAX_CSV_COLUMNS) :
    ∀ h ∈ headerBase raw total, pyStrip h = h ∧ h ≠ "" := by
  intro h hmem
  unfold headerBase at hmem
  obtain ⟨i, hi, hdef⟩ := List.mem_map.mp hmem
  have hir := List.mem_range.mp hi
  by_cases hblank : pyStrip (raw.getD i "") = ""
  · rw [← hdef]
    simp only [hblank, if_pos rfl]
    exact colName_facts i (by omega)
  · rw [← hdef]
    simp only [hblank, if_neg hblank]
    exact ⟨pyStrip_idem _, hblank⟩

/-- Entries of `dedupGo` output are strip-fixed and non-empty when the
input entries are and the total width is within the column limit. -/
theorem dedupGo_mem_facts :
    ∀ (l seen : List String),
      (∀ a ∈ l, pyStrip a = a ∧ a ≠ "") →
      seen.length + l.length ≤ MAX_CSV_COLUMNS →
      ∀ h ∈ dedupGo seen l, pyStrip h = h ∧ h ≠ "" := by
  intro l
  induction l with
  | nil => intro seen _ _ h hmem; simp [dedupGo] at hmem
  | cons n rest ih =>
    intro seen hfacts hbound h hmem
    unfold dedupGo at hmem
    rcases List.mem_cons.mp hmem with hhead | htail
    · by_cases hcnt : 1 < seen.count n + 1
      · rw [if_pos hcnt] at hhead
        subst hhead
        obtain ⟨hfix, hne⟩ := hfacts n (List.mem_cons_self n rest)
        refine strip_fixed_append_suffix n (seen.count n + 1) hfix hne ?_
        have hc := List.count_le_length n seen
        have h50 : MAX_CSV_COLUMNS = 50 := rfl
        simp only [List.length_cons] at hbound
        omega
      · rw [if_neg hcnt] at hhead
        rw [hhead]
        exact hfacts n (List.mem_cons_self n rest)
    · refine ih (seen ++ [n])
        (fun a ha => hfacts a (List.mem_cons_of_mem n ha)) ?_ h htail
      simp only [List.length_append, List.length_cons, List.length_nil] at *
      omega

/-- Entries of normalized headers are strip-fixed and non-empty. -/
theorem normalize_csv_headers_facts (raw : List String) (total : Nat)
    (htot : total ≤ MAX_CSV_COLUMNS) :
    ∀ h ∈ normalize_csv_headers raw total, pyStrip h = h ∧ h ≠ "" := by
  unfold normalize_csv_headers
  refine dedupGo_mem_facts _ [] (headerBase_facts raw total htot) ?_
  rw [headerBase_length]
  simpa using htot

/-- Reading back every index of a list reproduces it. -/
theorem range_map_getD {α : Type} (dflt : α) :
    ∀ l : List α, (List.range l.length).map (fun i => l.getD i dflt) = l := by
  intro l
  apply List.ext_getElem
  · simp
  · intro i h1 h2
    have h3 : i < (List.range l.length).length := by simpa using h2
    rw [List.getElem_map]
    rw [show (List.range l.length)[i] = i from List.getElem_range i h3]
    exact List.getD_eq_getElem l dflt h2

/-- `headerBase` over strip-fixed non-empty names is the identity. -/
theorem headerBase_eq_self (hs : List String)
    (hfacts : ∀ h ∈ hs, pyStrip h = h ∧ h ≠ "") :
    headerBase hs hs.length = hs := by
  unfold headerBase
  have hcong : ∀ i ∈ List.range hs.length,
      (let v := pyStrip (hs.getD i "")
       if v = "" then colName i else v) = hs.getD i "" := by
    intro i hi
    have hmem : hs.getD i "" ∈ hs := by
      have hir := List.mem_range.mp hi
      rw [List.getD_eq_getElem hs "" hir]
      exact List.getElem_mem hir
    obtain ⟨hfix, hne⟩ := hfacts _ hmem
    simp only [hfix, if_neg hne]
  rw [List.map_congr_left hcong, range_map_getD]

/-- `padTruncate` at the exact length is the identity. -/
theorem padTruncate_eq_self (cells : List String) (n : Nat)
    (h : cells.length = n) : padTruncate cells n = cells := by
  unfold padTruncate
  rw [← h, Nat.sub_self, List.replicate_zero, List.append_nil, List.take_length]

/-- A dict with exactly the headers as keys, read back in header order,
reproduces its values. -/
theorem dict_serialize_cells :
    ∀ (r : PyDict), (dictKeys r).Nodup →
      (dictKeys r).map (fun h => dictGetD r h "") = r.map Prod.snd := by
  intro r
  induction r with
  | nil => intro _; rfl
  | cons p rest ih =>
    intro hnd
    obtain ⟨k, v⟩ := p
    simp only [dictKeys, List.map_cons] at hnd ⊢
    have hget : dictGetD ((k, v) :: rest) k "" = v := by
      unfold dictGetD
      rw [List.find?_cons_of_pos _ (by simp)]
    rw [hget]
    congr 1
    have hcong : ∀ h ∈ rest.map Prod.fst,
        dictGetD ((k, v) :: rest) h "" = dictGetD rest h "" := by
      intro h hmem
      have hne : h ≠ k := by
        intro hcontra
        subst hcontra
        exact (List.nodup_cons.mp hnd).1 hmem
      unfold dictGetD
      rw [List.find?_cons_of_neg _ (by simp [hne.symm])]
    rw [List.map_congr_left hcong]
    exact ih (List.nodup_cons.mp hnd).2

/-- Zipping the keys and values of a pair list reproduces it. -/
theorem zip_fst_snd (r : PyDict) :
    (r.map Prod.fst).zip (r.map Prod.snd) = r := by
  induction r with
  | nil => rfl
  | cons p rest ih => simp [ih]

/-- `maxRowLen` of a non-empty list of equal-width rows. -/
theorem maxRowLen_const (rows : List (List String)) (n : Nat)
    (h : ∀ r ∈ rows, r.length = n) :
    maxRowLen rows = if rows = [] then 0 else n := by
  cases hr : rows with
  | nil => rfl
  | cons x xs =>
    rw [if_neg (by simp)]
    subst hr
    have h1 : maxRowLen (x :: xs) ≤ n :=
      maxRowLen_le _ _ (fun r hr => le_of_eq (h r hr))
    have h2 : n ≤ maxRowLen (x :: xs) := by
      have := maxRowLen_ge (x :: xs) x (List.mem_cons_self x xs)
      rw [h x (List.mem_cons_self x xs)] at this
      exact this
    omega

/-- Rows kept by the preview collection loop are non-blank. -/
theorem collectPreview_mem_nonblank :
    ∀ (raw : List (List String)) (total : Nat) (rows : List (List String))
      (trunc : Bool),
      collectPreviewRows total raw = .ok (rows, trunc) →
      ∀ r ∈ rows, rowNonBlank r = true := by
  intro raw
  induction raw with
  | nil =>
    intro total rows trunc h r hr
    simp only [collectPreviewRows] at h
    cases h
    simp at hr
  | cons x rest ih =>
    intro total rows trunc h r hr
    unfold collectPreviewRows at h
    by_cases hb : rowNonBlank x = true
    · rw [if_neg (not_not_intro hb)] at h
      by_cases hw : MAX_CSV_COLUMNS < x.length
      · rw [if_pos hw] at h
        exact absurd h (by simp)
      · rw [if_neg hw] at h
        by_cases hf : MAX_CSV_ROWS < total + 1
        · rw [if_pos hf] at h
          cases h
          simp at hr
        · rw [if_neg hf] at h
          cases hrec : collectPreviewRows (total + 1) rest with
          | error e =>
            rw [hrec] at h
            exact absurd h (by simp [Except.map])
          | ok p =>
            rw [hrec] at h
            simp only [Except.map, Except.ok.injEq] at h
            have hrows : rows = x :: p.1 := by
              have := congrArg Prod.fst h
              exact this.symm
            have htr : p.2 = trunc := congrArg Prod.snd h
            rw [hrows] at hr
            rcases List.mem_cons.mp hr with h1 | h1
            · rw [h1]; exact hb
            · exact ih (total + 1) p.1 p.2 (by rw [hrec]) r h1
    · rw [if_pos hb] at h
      exact ih total rows trunc h r hr

/-!
## Reader-writer correctness (claim C4, phase B)

Step lemmas for the `csv.reader` state machine on the serializer's output,
leading to `csvRead_table`: re-reading a serialized table recovers exactly
its records, for any delimiter other than the quote and newline
characters.
-/

/-- Reader step: opening quote inside a quoted field. -/
theorem csvStep_inq_quote (d : Char) (fld : List Char) (rec : List String)
    (rest : List Char) :
    csvReadGo d .inq fld rec ('"' :: rest) = csvReadGo d .qiq fld rec rest := by
  simp only [csvReadGo]
  rw [if_pos trivial]

theorem csvStep_inq_other (d c : Char) (fld : List Char) (rec : List String)
    (rest : List Char) (hc : c ≠ '"') (hlen : fld.length ≠ CSV_FIELD_LIMIT) :
    csvReadGo d .inq fld rec (c :: rest)
      = csvReadGo d .inq (c :: fld) rec rest := by
  simp only [csvReadGo]
  rw [if_neg hc, if_neg hlen]

theorem csvStep_qiq_quote (d : Char) (fld : List Char) (rec : List String)
    (rest : List Char) (hlen : fld.length ≠ CSV_FIELD_LIMIT) :
    csvReadGo d .qiq fld rec ('"' :: rest)
      = csvReadGo d .inq ('"' :: fld) rec rest := by
  simp only [csvReadGo]
  rw [if_pos trivial, if_neg hlen]

theorem csvStep_qiq_delim (d : Char) (fld : List Char) (rec : List String)
    (rest : List Char) (hd : d ≠ '"') :
    csvReadGo d .qiq fld rec (d :: rest)
      = csvReadGo d .sf [] (String.mk fld.reverse :: rec) rest := by
  simp only [csvReadGo]
  rw [if_neg hd, if_pos trivial]

theorem csvStep_qiq_newline (d : Char) (fld : List Char) (rec : List String)
    (rest : List Char) (hd : d ≠ '\n') :
    csvReadGo d .qiq fld rec ('\n' :: rest)
      = (csvReadGo d .sr [] [] rest).map
          (fun rs => (String.mk fld.reverse :: rec).reverse :: rs) := by
  simp only [csvReadGo]
  rw [if_neg (by decide : ¬ (('\n' : Char) = '"')), if_neg (fun h => hd h.symm),
    if_pos trivial]

theorem csvStep_qiq_eof (d : Char) (fld : List Char) (rec : List String) :
    csvReadGo d .qiq fld rec []
      = .ok [((String.mk fld.reverse :: rec).reverse)] := by
  simp only [csvReadGo]

theorem csvStep_sf_quote (d : Char) (fld : List Char) (rec : List String)
    (rest : List Char) :
    csvReadGo d .sf fld rec ('"' :: rest) = csvReadGo d .inq [] rec rest := by
  simp only [csvReadGo]
  rw [if_neg (by decide : ¬ (('"' : Char) = '\n')),
    if_neg (by decide : ¬ (('"' : Char) = '\r')), if_pos trivial]

theorem csvStep_sr_quote (d : Char) (fld : List Char) (rec : List String)
    (rest : List Char) :
    csvReadGo d .sr fld rec ('"' :: rest) = csvReadGo d .inq [] [] rest := by
  simp only [csvReadGo]
  rw [if_neg (by decide : ¬ (('"' : Char) = '\n')),
    if_neg (by decide : ¬ (('"' : Char) = '\r')), if_pos trivial]

theorem escQ_nil : escQ [] = [] := rfl

theorem escQ_cons (c : Char) (rest : List Char) :
    escQ (c :: rest)
      = if c = '"' then '"' :: '"' :: escQ rest else c :: escQ rest := rfl

theorem csvRead_inq_escQ (d : Char) :
    ∀ (s : List Char) (rest fld : List Char) (rec : List String),
      fld.length + s.length ≤ CSV_FIELD_LIMIT →
      csvReadGo d .inq fld rec (escQ s ++ rest)
        = csvReadGo d .inq (s.reverse ++ fld) rec rest := by
  intro s
  induction s with
  | nil => intro rest fld rec _; rw [escQ_nil, List.nil_append, List.reverse_nil, List.nil_append]
  | cons c cs ih =>
    intro rest fld rec hlen
    simp only [List.length_cons] at hlen
    by_cases hc : c = '"'
    · subst hc
      rw [show escQ ('"' :: cs) = '"' :: '"' :: escQ cs from by
        rw [escQ_cons, if_pos rfl]]
      show csvReadGo d .inq fld rec ('"' :: ('"' :: (escQ cs ++ rest))) = _
      rw [csvStep_inq_quote, csvStep_qiq_quote _ _ _ _ (by omega),
        ih rest ('"' :: fld) rec (by simp; omega)]
      simp
    · rw [show escQ (c :: cs) = c :: escQ cs from by
        rw [escQ_cons, if_neg hc]]
      show csvReadGo d .inq fld rec (c :: (escQ cs ++ rest)) = _
      rw [csvStep_inq_other _ _ _ _ _ hc (by omega),
        ih rest (c :: fld) rec (by simp; omega)]
      simp

theorem csvRead_cell (d : Char) (s : List Char) (fld : List Char)
    (rec : List String) (rest : List Char)
    (hlen : s.length ≤ CSV_FIELD_LIMIT) :
    csvReadGo d .sf fld rec (writeCellL s ++ rest)
      = csvReadGo d .qiq s.reverse rec rest := by
  show csvReadGo d .sf fld rec ('"' :: ((escQ s ++ ['"']) ++ rest)) = _
  rw [csvStep_sf_quote, List.append_assoc]
  show csvReadGo d .inq [] rec (escQ s ++ ('"' :: rest)) = _
  rw [csvRead_inq_escQ d s ('"' :: rest) [] rec (by simpa using hlen),
    List.append_nil, csvStep_inq_quote]

theorem mk_toList (s : String) : String.mk s.toList = s := rfl

theorem writeRowL_single (d : Char) (c : List Char) :
    writeRowL d [c] = writeCellL c := rfl

theorem writeRowL_cons2 (d : Char) (c c2 : List Char) (rest : List (List Char)) :
    writeRowL d (c :: c2 :: rest) = writeCellL c ++ d :: writeRowL d (c2 :: rest) := rfl

theorem writeRowL_head (d : Char) (c : List Char) (rest : List (List Char)) :
    ∃ t, writeRowL d (c :: rest) = '"' :: t := by
  cases rest with
  | nil => exact ⟨escQ c ++ ['"'], rfl⟩
  | cons c2 cs => exact ⟨(escQ c ++ ['"']) ++ d :: writeRowL d (c2 :: cs), rfl⟩

theorem joinLines_single (l : List Char) : joinLines [l] = l := rfl

theorem joinLines_cons2 (l l2 : List Char) (rest : List (List Char)) :
    joinLines (l :: l2 :: rest) = l ++ '\n' :: joinLines (l2 :: rest) := rfl

/-- Reading one written record that ends the input. -/
theorem csvRead_row_eof (d : Char) (hd2 : d ≠ '"') :
    ∀ (cells : List String), cells ≠ [] →
      (∀ c ∈ cells, c.length ≤ CSV_FIELD_LIMIT) →
      ∀ (rec : List String) (fld : List Char),
      csvReadGo d .sf fld rec (writeRowL d (cells.map String.toList))
        = .ok [rec.reverse ++ cells] := by
  intro cells
  induction cells with
  | nil => intro h; exact absurd rfl h
  | cons c rest ih =>
    intro _ hlen rec fld
    cases rest with
    | nil =>
      rw [List.map_cons, List.map_nil, writeRowL_single,
        ← List.append_nil (writeCellL c.toList),
        csvRead_cell d c.toList fld rec []
          (hlen c (List.mem_cons_self c [])),
        csvStep_qiq_eof]
      simp [mk_toList]
    | cons c2 cs =>
      rw [List.map_cons, List.map_cons, writeRowL_cons2]
      rw [csvRead_cell d c.toList fld rec _
          (hlen c (List.mem_cons_self c _)),
        csvStep_qiq_delim d _ _ _ hd2]
      rw [List.reverse_reverse, mk_toList, ← List.map_cons]
      rw [ih (by simp) (fun x hx => hlen x (List.mem_cons_of_mem _ hx)) (c :: rec) []]
      simp

/-- Reading one written record followed by a newline and more input. -/
theorem csvRead_row_nl (d : Char) (hd2 : d ≠ '"') (hd3 : d ≠ '\n') :
    ∀ (cells : List String), cells ≠ [] →
      (∀ c ∈ cells, c.length ≤ CSV_FIELD_LIMIT) →
      ∀ (rec : List String) (fld more : List Char),
      csvReadGo d .sf fld rec
          (writeRowL d (cells.map String.toList) ++ '\n' :: more)
        = (csvReadGo d .sr [] [] more).map
            (fun rs => (rec.reverse ++ cells) :: rs) := by
  intro cells
  induction cells with
  | nil => intro h; exact absurd rfl h
  | cons c rest ih =>
    intro _ hlen rec fld more
    cases rest with
    | nil =>
      rw [List.map_cons, List.map_nil, writeRowL_single,
        csvRead_cell d c.toList fld rec _
          (hlen c (List.mem_cons_self c [])),
        csvStep_qiq_newline d _ _ _ hd3]
      simp [mk_toList]
    | cons c2 cs =>
      rw [List.map_cons, List.map_cons, writeRowL_cons2, List.append_assoc,
        List.cons_append]
      rw [csvRead_cell d c.toList fld rec _
          (hlen c (List.mem_cons_self c _)),
        csvStep_qiq_delim d _ _ _ hd2]
      rw [List.reverse_reverse, mk_toList, ← List.map_cons]
      rw [ih (by simp) (fun x hx => hlen x (List.mem_cons_of_mem _ hx)) (c :: rec) [] more]
      simp

/-- A record starting with a quote reads the same from record start as from
field start with an empty record. -/
theorem csvRead_sr_eq_sf (d : Char) (tail fld fld2 : List Char) (rec : List String) :
    csvReadGo d .sr fld rec ('"' :: tail) = csvReadGo d .sf fld2 [] ('"' :: tail) := by
  rw [csvStep_sr_quote, csvStep_sf_quote]

theorem joinLines_cons_ne (l : List Char) (L : List (List Char)) (h : L ≠ []) :
    joinLines (l :: L) = l ++ '\n' :: joinLines L := by
  cases L with
  | nil => exact absurd rfl h
  | cons l2 rest => exact joinLines_cons2 l l2 rest

/-- Reading a whole serialized table. -/
theorem csvRead_table (d : Char) (hd2 : d ≠ '"') (hd3 : d ≠ '\n') :
    ∀ (rws : List (List String)), rws ≠ [] →
      (∀ r ∈ rws, r ≠ [] ∧ ∀ c ∈ r, c.length ≤ CSV_FIELD_LIMIT) →
      csvReadGo d .sr [] [] (joinLines (rws.map (writeRowS d)))
        = .ok rws := by
  intro rws
  induction rws with
  | nil => intro h; exact absurd rfl h
  | cons r rest ih =>
    intro _ hok
    obtain ⟨hr, hrlen⟩ := hok r (List.mem_cons_self r _)
    obtain ⟨c, r2, hr2⟩ := List.exists_cons_of_ne_nil hr
    obtain ⟨t, ht⟩ : ∃ t, writeRowS d r = '"' :: t := by
      rw [hr2]
      exact writeRowL_head d c.toList (r2.map String.toList)
    cases rest with
    | nil =>
      rw [List.map_cons, List.map_nil, joinLines_single, ht,
        csvRead_sr_eq_sf d t [] [] [], ← ht,
        show writeRowS d r = writeRowL d (r.map String.toList) from rfl,
        csvRead_row_eof d hd2 r hr hrlen [] []]
      simp
    | cons rr rs =>
      rw [List.map_cons, joinLines_cons_ne _ _ (by simp), ht,
        List.cons_append, csvRead_sr_eq_sf d _ [] [] [], ← List.cons_append, ← ht,
        show writeRowS d r = writeRowL d (r.map String.toList) from rfl,
        csvRead_row_nl d hd2 hd3 r hr hrlen [] [] _,
        ih (by simp) (fun x hx => hok x (List.mem_cons_of_mem _ hx))]
      simp [Except.map]

/-!
## Round-trip assembly (claim C4)
-/

/-- `d.get(k, "")` is the default or one of the dict's values. -/
theorem dictGetD_mem (r : PyDict) (k dflt : String) :
    dictGetD r k dflt = dflt ∨ dictGetD r k dflt ∈ r.map Prod.snd := by
  unfold dictGetD
  cases hf : r.find? (fun p => p.1 == k) with
  | none => left; rfl
  | some p =>
    right
    exact List.mem_map_of_mem Prod.snd (List.mem_of_find?_eq_some hf)

/-- Sanitized cells never exceed `MAX_CELL_CHARS + 3` characters. -/
theorem sanitize_length_le (v : String) :
    (sanitize_csv_cell v).length ≤ MAX_CELL_CHARS + 3 := by
  rcases sanitize_csv_cell_shape v with h | ⟨h, _⟩
  · omega
  · omega

/-- Padding to at least the current width keeps every cell. -/
theorem mem_padTruncate_of_le (cells : List String) (n : Nat)
    (hn : cells.length ≤ n) (x : String) (hx : x ∈ cells) :
    x ∈ padTruncate cells n := by
  unfold padTruncate
  have h2 : n = cells.length + (n - cells.length) := by omega
  rw [h2, List.take_append]
  exact List.mem_append_left _ (by simpa using hx)

/-- Reading a row back in the order of its own (distinct) keys yields its
values. -/
theorem rowCells_eq_values (H : List String) (r : PyDict)
    (hk : dictKeys r = H) (hnd : H.Nodup) :
    rowCells H r = r.map Prod.snd := by
  unfold rowCells
  rw [← hk]
  exact dict_serialize_cells r (by rw [hk]; exact hnd)

/-- Structural invariants of a successful preview parse used by the
round-trip theorem: headers are non-empty, within the column limit,
strip-fixed and cell-wise non-empty; and (when the headers are distinct)
every row is keyed exactly by the headers, every stored value is
sanitize-fixed, and every row has some non-empty value. -/
theorem parse_preview_invariants (text : String) (d : Char) (hh : Bool)
    (t : CsvParsed) (h : parse_csv_text text d hh = .ok t) :
    t.headers ≠ [] ∧
    t.headers.length ≤ MAX_CSV_COLUMNS ∧
    (∀ x ∈ t.headers, pyStrip x = x ∧ x ≠ "") ∧
    (t.headers.Nodup →
      ∀ r ∈ t.rows,
        dictKeys r = t.headers ∧
        (∀ p ∈ r, sanitize_csv_cell p.2 = p.2) ∧
        ∃ p ∈ r, p.2 ≠ "") := by
  obtain ⟨raw, rows, trunc, hread, hcol, hasm⟩ := parse_csv_text_ok_inv _ _ _ _ h
  obtain ⟨h0, hmc, hover, ht⟩ := previewAssemble_ok_inv _ _ _ _ _ hasm
  have hnonblank : ∀ r ∈ rows, rowNonBlank r = true :=
    collectPreview_mem_nonblank raw 0 rows trunc hcol
  subst ht
  cases hh with
  | true =>
    simp only [if_true, ite_true] at hmc hover ⊢
    set mc := max (rows.headD []).length (maxRowLen rows.tail) with hmcdef
    set H := normalize_csv_headers (rows.headD []) mc with hHdef
    have hhl : H.length = mc := normalize_csv_headers_length _ _
    have hHfacts : ∀ x ∈ H, pyStrip x = x ∧ x ≠ "" :=
      normalize_csv_headers_facts _ _ (by omega)
    refine ⟨?_, by omega, hHfacts, ?_⟩
    · intro hcontra
      have := congrArg List.length hcontra
      rw [hhl] at this
      simp at this
      omega
    · intro hnd r hr
      obtain ⟨r0, hr0, rfl⟩ := List.mem_map.mp hr
      have hr0rows : r0 ∈ rows := List.mem_of_mem_tail hr0
      have hr0len : r0.length ≤ mc := by
        have := maxRowLen_ge rows.tail r0 hr0
        omega
      have hcl : (padTruncate (r0.map sanitize_csv_cell) H.length).length
          = H.length := padTruncate_length _ _
      have hfst : (H.zip (padTruncate (r0.map sanitize_csv_cell)
          H.length)).map Prod.fst = H :=
        List.map_fst_zip _ _ (le_of_eq hcl.symm)
      have hself : pyDictOfPairs (H.zip (padTruncate
          (r0.map sanitize_csv_cell) H.length))
            = H.zip (padTruncate (r0.map sanitize_csv_cell) H.length) :=
        pyDictOfPairs_eq_self _ (by rw [hfst]; exact hnd)
      have hsnd : (H.zip (padTruncate (r0.map sanitize_csv_cell)
          H.length)).map Prod.snd
            = padTruncate (r0.map sanitize_csv_cell) H.length :=
        List.map_snd_zip _ _ (le_of_eq hcl)
      refine ⟨?_, ?_, ?_⟩
      · show dictKeys _ = H
        rw [hself]
        exact hfst
      · intro p hp
        rw [hself] at hp
        have hv : p.2 ∈ padTruncate (r0.map sanitize_csv_cell) H.length :=
          (List.of_mem_zip hp).2
        rcases mem_padTruncate _ _ _ hv with hin | hpad
        · obtain ⟨c, _, hc⟩ := List.mem_map.mp hin
          rw [← hc, sanitize_idem]
        · rw [hpad]
          rfl
      · have hb := hnonblank r0 hr0rows
        obtain ⟨c, hcmem, hcne⟩ := List.any_eq_true.mp hb
        have hcne' : pyStrip c ≠ "" := by simpa using hcne
        have hsin : sanitize_csv_cell c ∈ r0.map sanitize_csv_cell :=
          List.mem_map_of_mem _ hcmem
        have hsin2 : sanitize_csv_cell c
            ∈ padTruncate (r0.map sanitize_csv_cell) H.length := by
          refine mem_padTruncate_of_le _ _ ?_ _ hsin
          rw [List.length_map, hhl]
          exact hr0len
        rw [← hsnd] at hsin2
        obtain ⟨p, hp, hpv⟩ := List.mem_map.mp hsin2
        rw [hself]
        exact ⟨p, hp, by rw [hpv]; exact sanitize_ne_empty c hcne'⟩
  | false =>
    simp only [if_neg (show ¬ ((false : Bool) = true) by simp)] at hmc hover ⊢
    set mc := maxRowLen rows with hmcdef
    set H := (List.range mc).map colName with hHdef
    have hhl : H.length = mc := by simp [hHdef]
    have hHfacts : ∀ x ∈ H, pyStrip x = x ∧ x ≠ "" := by
      intro x hx
      obtain ⟨i, hi, rfl⟩ := List.mem_map.mp hx
      exact colName_facts i (by
        have := List.mem_range.mp hi
        omega)
    refine ⟨?_, by omega, hHfacts, ?_⟩
    · intro hcontra
      have := congrArg List.length hcontra
      rw [hhl] at this
      simp at this
      omega
    · intro hnd r hr
      obtain ⟨r0, hr0, rfl⟩ := List.mem_map.mp hr
      have hr0len : r0.length ≤ mc := maxRowLen_ge rows r0 hr0
      have hcl : (padTruncate (r0.map sanitize_csv_cell) H.length).length
          = H.length := padTruncate_length _ _
      have hfst : (H.zip (padTruncate (r0.map sanitize_csv_cell)
          H.length)).map Prod.fst = H :=
        List.map_fst_zip _ _ (le_of_eq hcl.symm)
      have hself : pyDictOfPairs (H.zip (padTruncate
          (r0.map sanitize_csv_cell) H.length))
            = H.zip (padTruncate (r0.map sanitize_csv_cell) H.length) :=
        pyDictOfPairs_eq_self _ (by rw [hfst]; exact hnd)
      have hsnd : (H.zip (padTruncate (r0.map sanitize_csv_cell)
          H.length)).map Prod.snd
            = padTruncate (r0.map sanitize_csv_cell) H.length :=
        List.map_snd_zip _ _ (le_of_eq hcl)
      refine ⟨?_, ?_, ?_⟩
      · show dictKeys _ = H
        rw [hself]
        exact hfst
      · intro p hp
        rw [hself] at hp
        have hv : p.2 ∈ padTruncate (r0.map sanitize_csv_cell) H.length :=
          (List.of_mem_zip hp).2
        rcases mem_padTruncate _ _ _ hv with hin | hpad
        · obtain ⟨c, _, hc⟩ := List.mem_map.mp hin
          rw [← hc, sanitize_idem]
        · rw [hpad]
          rfl
      · have hb := hnonblank r0 hr0
        obtain ⟨c, hcmem, hcne⟩ := List.any_eq_true.mp hb
        have hcne' : pyStrip c ≠ "" := by simpa using hcne
        have hsin : sanitize_csv_cell c ∈ r0.map sanitize_csv_cell :=
          List.mem_map_of_mem _ hcmem
        have hsin2 : sanitize_csv_cell c
            ∈ padTruncate (r0.map sanitize_csv_cell) H.length := by
          refine mem_padTruncate_of_le _ _ ?_ _ hsin
          rw [List.length_map, hhl]
          exact hr0len
        rw [← hsnd] at hsin2
        obtain ⟨p, hp, hpv⟩ := List.mem_map.mp hsin2
        rw [hself]
        exact ⟨p, hp, by rw [hpv]; exact sanitize_ne_empty c hcne'⟩

/-- Round-trip reconstruction of one parsed row from its serialized
cells. -/
theorem roundtrip_row (H : List String) (r : PyDict) (hnd : H.Nodup)
    (hk : dictKeys r = H)
    (hfix : ∀ p ∈ r, sanitize_csv_cell p.2 = p.2) :
    pyDictOfPairs (H.zip
        (padTruncate ((rowCells H r).map sanitize_csv_cell) H.length)) = r := by
  rw [rowCells_eq_values H r hk hnd]
  have hrlen : r.length = H.length := by
    have : (r.map Prod.fst).length = H.length := by
      rw [show r.map Prod.fst = dictKeys r from rfl, hk]
    simpa using this
  have hfixmap : (r.map Prod.snd).map sanitize_csv_cell = r.map Prod.snd := by
    have hall : ∀ c ∈ r.map Prod.snd, sanitize_csv_cell c = id c := by
      intro c hc
      obtain ⟨p, hp, rfl⟩ := List.mem_map.mp hc
      exact hfix p hp
    rw [List.map_congr_left hall, List.map_id]
  rw [hfixmap, padTruncate_eq_self _ _ (by rw [List.length_map]; exact hrlen)]
  have hfst : r.map Prod.fst = H := hk
  rw [← hfst, zip_fst_snd]
  exact pyDictOfPairs_eq_self r (by rw [hfst]; exact hnd)

/-- C4 (amended): re-serializing a successfully preview-parsed table in
header order with the same delimiter and re-parsing it in header mode
reproduces the headers and rows exactly, provided the returned headers are
pairwise distinct and within the stdlib field limit, the delimiter is
neither the quote nor the newline character, and the table has room for
its header line within the row budget. -/
theorem C4_roundtrip_amended (text : String) (d : Char) (hh : Bool)
    (t : CsvParsed) (h : parse_csv_text text d hh = .ok t)
    (hnd : t.headers.Nodup)
    (hhl : ∀ x ∈ t.headers, x.length ≤ CSV_FIELD_LIMIT)
    (hd2 : d ≠ '"') (hd3 : d ≠ '\n')
    (hcount : t.rows.length + 1 ≤ MAX_CSV_ROWS) :
    parse_csv_text (serializeTable d t.headers t.rows) d true
      = .ok ⟨t.headers, t.rows, false, d, t.rows.length⟩ := by
  obtain ⟨hHne, hH50, hHfacts, hrowfn⟩ := parse_preview_invariants text d hh t h
  have hrows := hrowfn hnd
  have hVvals : ∀ r ∈ t.rows, rowCells t.headers r = r.map Prod.snd :=
    fun r hr => rowCells_eq_values _ r (hrows r hr).1 hnd
  have hrlen : ∀ r ∈ t.rows, r.length = t.headers.length := by
    intro r hr
    have hk := (hrows r hr).1
    have : (r.map Prod.fst).length = t.headers.length := by
      rw [show r.map Prod.fst = dictKeys r from rfl, hk]
    simpa using this
  have hVlen : ∀ r ∈ t.rows,
      (rowCells t.headers r).length = t.headers.length := by
    intro r hr
    rw [hVvals r hr, List.length_map]
    exact hrlen r hr
  have hHpos : 0 < t.headers.length := List.length_pos.mpr hHne
  have hcellbound : ∀ r ∈ t.rows, ∀ c ∈ rowCells t.headers r,
      c.length ≤ CSV_FIELD_LIMIT := by
    intro r hr c hc
    rw [hVvals r hr] at hc
    obtain ⟨p, hp, rfl⟩ := List.mem_map.mp hc
    have hfix := (hrows r hr).2.1 p hp
    have hle := sanitize_length_le p.2
    rw [hfix] at hle
    have hA : MAX_CELL_CHARS = 500 := rfl
    have hB : CSV_FIELD_LIMIT = 131072 := rfl
    omega
  have hrecs : ∀ r ∈ t.headers :: t.rows.map (rowCells t.headers),
      r ≠ [] ∧ ∀ c ∈ r, c.length ≤ CSV_FIELD_LIMIT := by
    intro r hr
    rcases List.mem_cons.mp hr with h1 | h1
    · subst h1
      exact ⟨hHne, hhl⟩
    · obtain ⟨r0, hr0, rfl⟩ := List.mem_map.mp h1
      refine ⟨?_, hcellbound r0 hr0⟩
      have hlen := hVlen r0 hr0
      intro hcontra
      rw [hcontra] at hlen
      simp at hlen
      omega
  have hread2 : csvReadRows d (serializeTable d t.headers t.rows)
      = .ok (t.headers :: t.rows.map (rowCells t.headers)) := by
    show csvReadGo d .sr [] []
        (joinLines
          ((t.headers :: t.rows.map (rowCells t.headers)).map (writeRowS d)))
      = _
    exact csvRead_table d hd2 hd3 _ (by simp) hrecs
  have hnb : ∀ r ∈ t.headers :: t.rows.map (rowCells t.headers),
      rowNonBlank r = true := by
    intro r hr
    rcases List.mem_cons.mp hr with h1 | h1
    · subst h1
      obtain ⟨x, xs, hx⟩ := List.exists_cons_of_ne_nil hHne
      obtain ⟨hfixx, hnex⟩ := hHfacts x (by rw [hx]; exact List.mem_cons_self x xs)
      unfold rowNonBlank
      exact List.any_eq_true.mpr
        ⟨x, by rw [hx]; exact List.mem_cons_self x xs,
          decide_eq_true (by rw [hfixx]; exact hnex)⟩
    · obtain ⟨r0, hr0, rfl⟩ := List.mem_map.mp h1
      obtain ⟨p, hp, hpne⟩ := (hrows r0 hr0).2.2
      have hfix := (hrows r0 hr0).2.1 p hp
      have hstrip : pyStrip p.2 = p.2 := by
        have hs := sanitize_strip_fixed p.2
        rw [hfix] at hs
        exact hs
      have hmem : p.2 ∈ rowCells t.headers r0 := by
        rw [hVvals r0 hr0]
        exact List.mem_map_of_mem Prod.snd hp
      unfold rowNonBlank
      exact List.any_eq_true.mpr
        ⟨p.2, hmem, decide_eq_true (by rw [hstrip]; exact hpne)⟩
  have hfilter :
      (t.headers :: t.rows.map (rowCells t.headers)).filter rowNonBlank
        = t.headers :: t.rows.map (rowCells t.headers) :=
    List.filter_eq_self.mpr hnb
  have hwidth : ∀ r ∈ t.headers :: t.rows.map (rowCells t.headers),
      r.length ≤ MAX_CSV_COLUMNS := by
    intro r hr
    rcases List.mem_cons.mp hr with h1 | h1
    · subst h1; exact hH50
    · obtain ⟨r0, hr0, rfl⟩ := List.mem_map.mp h1
      rw [hVlen r0 hr0]
      exact hH50
  have hcol2 : collectPreviewRows 0 (t.headers :: t.rows.map (rowCells t.headers))
      = .ok (t.headers :: t.rows.map (rowCells t.headers), false) := by
    have hall := collectPreview_ok_all
      (t.headers :: t.rows.map (rowCells t.headers)) 0
      (by
        rw [hfilter]
        simp only [List.length_cons, List.length_map]
        omega)
      (by
        rw [hfilter]
        exact hwidth)
    rw [hfilter] at hall
    exact hall
  obtain ⟨t2, hasm2, htr2⟩ := previewAssemble_ok_of d true _ false
    (by simp) (fun r hr => (hrecs r hr).1) hwidth
  obtain ⟨_, _, _, ht2⟩ := previewAssemble_ok_inv _ _ _ _ _ hasm2
  simp only [if_true, ite_true] at ht2
  simp only [List.headD_cons, List.tail_cons] at ht2
  have hmax : max t.headers.length (maxRowLen (t.rows.map (rowCells t.headers)))
      = t.headers.length := by
    have hconst := maxRowLen_const (t.rows.map (rowCells t.headers))
      t.headers.length
      (by
        intro v hv
        obtain ⟨r0, hr0, rfl⟩ := List.mem_map.mp hv
        exact hVlen r0 hr0)
    rw [hconst]
    by_cases hE : t.rows.map (rowCells t.headers) = []
    · rw [if_pos hE]
      exact Nat.max_zero _
    · rw [if_neg hE]
      exact Nat.max_self _
  have hnorm : normalize_csv_headers t.headers t.headers.length = t.headers := by
    unfold normalize_csv_headers
    rw [headerBase_eq_self t.headers hHfacts]
    exact dedupGo_eq_self t.headers [] hnd (by simp)
  simp only [hmax, hnorm] at ht2
  have hrowsback : (t.rows.map (rowCells t.headers)).map
      (fun r => pyDictOfPairs (t.headers.zip
        (padTruncate (r.map sanitize_csv_cell) t.headers.length)))
      = t.rows := by
    rw [List.map_map]
    have hpt : ∀ r ∈ t.rows,
        ((fun r => pyDictOfPairs (t.headers.zip
          (padTruncate (r.map sanitize_csv_cell) t.headers.length)))
          ∘ rowCells t.headers) r = id r := by
      intro r hr
      simp only [Function.comp, id]
      exact roundtrip_row t.headers r hnd (hrows r hr).1 (hrows r hr).2.1
    rw [List.map_congr_left hpt, List.map_id]
  rw [parse_csv_text_eq_rows _ _ _ _ hread2,
    parse_csv_rows_eq_assemble _ _ _ _ _ hcol2,
    hasm2, ht2, hrowsback, List.length_map]

set_option maxRecDepth 10000 in
/-- C4 counterexample: the table parsed from `"a,a,a_2\n1,2,3"` has headers
`a, a_2, a_2`; serializing its rows back in header order and re-parsing
yields headers `a, a_2, a_2_2` (and a third cell in the row), so the
round-trip is NOT the identity. -/
theorem C4_counterexample :
    parse_csv_text "a,a,a_2\n1,2,3" ',' true
      = .ok ⟨["a", "a_2", "a_2"], [[("a", "1"), ("a_2", "3")]], false, ',', 1⟩ ∧
    parse_csv_text
        (serializeTable ',' ["a", "a_2", "a_2"] [[("a", "1"), ("a_2", "3")]])
        ',' true
      = .ok ⟨["a", "a_2", "a_2_2"],
          [[("a", "1"), ("a_2", "3"), ("a_2_2", "3")]], false, ',', 1⟩ ∧
    (["a", "a_2", "a_2_2"] : List String) ≠ ["a", "a_2", "a_2"] := by
  refine ⟨rfl, rfl, by decide⟩

/-- Witness for C4 (amended): the round trip at the spec's scenario table
`"a,b\n1,2\n3,4"`. -/
theorem C4_roundtrip_amended_witness :
    parse_csv_text
        (serializeTable ',' ["a", "b"]
          [[("a", "1"), ("b", "2")], [("a", "3"), ("b", "4")]]) ',' true
      = .ok ⟨["a", "b"],
          [[("a", "1"), ("b", "2")], [("a", "3"), ("b", "4")]],
          false, ',', 2⟩ :=
  C4_roundtrip_amended "a,b\n1,2\n3,4" ',' true
    ⟨["a", "b"], [[("a", "1"), ("b", "2")], [("a", "3"), ("b", "4")]],
      false, ',', 2⟩
    rfl (by decide) (by decide) (by decide) (by decide) (by decide)
